import Mathlib

/-!
Shallow embedding of the Spendlens backend (src/app.py): a Flask + Redis
CRUD service.  The embedding models:

* JSON values (`Json`, with mutually inductive lists and objects), the
  record codec `json.dumps` / `json.loads` (`dumpStr` / `loads`) as a real
  serializer and parser over character lists, with a proved round-trip;
* Python truthiness (`truthy`), Python equality (`pyEq`) and the partial
  Python strict comparison (`pyLt`, `none` modelling a TypeError);
* Python `list.sort` with a key function as a stable insertion sort in the
  `Option` monad (`sortPairs`; `none` modelling an uncaught TypeError),
  which agrees observationally with CPython sorting on inputs whose keys
  are pairwise comparable, and fails only where CPython may raise;
* the Redis store visible to the app: the plain key space (settings and
  the two `INCR` counters) and the three hashes `expenses`, `payments`,
  `photos`, each as an association list of string fields to string values;
* every API handler of app.py as a function `body/path → Store →
  Option (status × Json × Store)`, where `none` models an unhandled Python
  exception (Flask 500) — in every handler of this program all store
  writes happen after the last possible exception point, so a crashing
  handler leaves the store unchanged.

Modelling notes (all unobservable by the properties proved here): JSON
numbers are modelled as integers (floating point is out of scope); the
serializer escapes `"`, `\` and control characters (CPython additionally
\u-escapes non-ASCII characters — the encoded bytes differ but the
round-trip behaviour proved here is the same); Python dict equality on
objects is modelled structurally.
-/

/-! ### JSON values -/

mutual

inductive Json where
  | null : Json
  | bool (b : Bool) : Json
  | num (n : Int) : Json
  | str (s : String) : Json
  | arr (items : JsonList) : Json
  | obj (fields : JsonObj) : Json
deriving DecidableEq

inductive JsonList where
  | nil : JsonList
  | cons (hd : Json) (tl : JsonList) : JsonList
deriving DecidableEq

inductive JsonObj where
  | nil : JsonObj
  | cons (k : String) (v : Json) (tl : JsonObj) : JsonObj
deriving DecidableEq

end

/-- Lookup of a key in a JSON object, like Python `dict.get` (first match;
Python dicts cannnot actually contain duplicates). -/
def JsonObj.find? : JsonObj → String → Option Json
  | .nil, _ => none
  | .cons k v tl, key => if k = key then some v else tl.find? key

/-- Python dict assignment `d[key] = v`: replace the value of an existing
key in place (keeping insertion order), else append the new key at the end. -/
def JsonObj.set : JsonObj → String → Json → JsonObj
  | .nil, key, v => .cons key v .nil
  | .cons k v0 tl, key, v =>
    if k = key then .cons k v tl else .cons k v0 (tl.set key v)

theorem JsonObj.find?_set_self : ∀ (o : JsonObj) (k : String) (v : Json),
    (o.set k v).find? k = some v
  | .nil, k, v => by simp [JsonObj.set, JsonObj.find?]
  | .cons k0 v0 tl, k, v => by
    by_cases h : k0 = k <;>
      simp [JsonObj.set, JsonObj.find?, h, JsonObj.find?_set_self tl k v]

theorem JsonObj.find?_set_other : ∀ (o : JsonObj) (k k2 : String) (v : Json),
    k2 ≠ k → (o.set k v).find? k2 = o.find? k2
  | .nil, k, k2, v, hne => by simp [JsonObj.set, JsonObj.find?, Ne.symm hne]
  | .cons k0 v0 tl, k, k2, v, hne => by
    by_cases h : k0 = k
    · subst h
      simp [JsonObj.set, JsonObj.find?, Ne.symm hne]
    · by_cases h2 : k0 = k2 <;>
        simp [JsonObj.set, JsonObj.find?, h, h2, hne,
          JsonObj.find?_set_other tl k k2 v hne]

/-! ### Decimal rendering and parsing of integers

`str(int)` as produced by `json.dumps`, and the strict decimal parser used
both by the JSON parser and by the model of Redis `INCR`. -/

/-- Character for a single decimal digit. -/
def digitCh (d : Nat) : Char := Char.ofNat (48 + d)

/-- Little-endian decimal digits, fuel-indexed so that it is structurally
recursive (and hence kernel-reducible). -/
def natDigitsAux : Nat → Nat → List Nat
  | 0, _ => []
  | fuel + 1, n => if n = 0 then [] else n % 10 :: natDigitsAux fuel (n / 10)

theorem natDigitsAux_eq_digits : ∀ (fuel n : Nat), n ≤ fuel →
    natDigitsAux fuel n = Nat.digits 10 n
  | 0, n, h => by
    have : n = 0 := by omega
    subst this
    simp [natDigitsAux]
  | fuel + 1, n, h => by
    by_cases h0 : n = 0
    · subst h0
      simp [natDigitsAux]
    · have hdiv : n / 10 ≤ fuel := by
        have := Nat.div_lt_self (by omega : 0 < n) (by norm_num : 1 < 10)
        omega
      rw [natDigitsAux, if_neg h0, natDigitsAux_eq_digits fuel (n / 10) hdiv,
        ← Nat.digits_def' (by norm_num : (1:Nat) < 10) (by omega : 0 < n)]

/-- Decimal digits of a natural number, most significant first (`str(n)`). -/
def natDigits (n : Nat) : List Char :=
  if n = 0 then ['0'] else (natDigitsAux n n).reverse.map digitCh

theorem natDigits_eq_digits (n : Nat) :
    natDigits n = if n = 0 then ['0'] else (Nat.digits 10 n).reverse.map digitCh := by
  rw [natDigits, natDigitsAux_eq_digits n n (le_refl n)]

/-- Value of one decimal digit character. -/
def digitVal (c : Char) : Nat := c.toNat - 48

/-- Big-endian decimal value of a digit string. -/
def digitsVal (cs : List Char) : Nat :=
  cs.foldl (fun a c => a * 10 + digitVal c) 0

theorem digitVal_digitCh {d : Nat} (h : d < 10) : digitVal (digitCh d) = d := by
  interval_cases d <;> decide

theorem isDigit_digitCh {d : Nat} (h : d < 10) : (digitCh d).isDigit = true := by
  interval_cases d <;> decide

theorem digitsVal_append (xs ys : List Char) :
    digitsVal (xs ++ ys) = ys.foldl (fun a c => a * 10 + digitVal c) (digitsVal xs) := by
  simp [digitsVal, List.foldl_append]

theorem digitsVal_rev_map (l : List Nat) (h : ∀ d ∈ l, d < 10) :
    digitsVal (l.reverse.map digitCh) = Nat.ofDigits 10 l := by
  induction l with
  | nil => simp [digitsVal, Nat.ofDigits]
  | cons d ds ih =>
    have hd : d < 10 := h d (by simp)
    have hds : ∀ x ∈ ds, x < 10 := fun x hx => h x (by simp [hx])
    simp only [List.reverse_cons, List.map_append, List.map_cons, List.map_nil]
    rw [digitsVal_append, ih hds]
    simp [Nat.ofDigits_cons, digitVal_digitCh hd]
    ring

theorem digitsVal_natDigits (n : Nat) : digitsVal (natDigits n) = n := by
  by_cases h : n = 0
  · subst h; decide
  · rw [natDigits_eq_digits, if_neg h,
      digitsVal_rev_map _ (fun d hd => Nat.digits_lt_base (by norm_num) hd),
      Nat.ofDigits_digits]

theorem natDigits_ne_nil (n : Nat) : natDigits n ≠ [] := by
  by_cases h : n = 0
  · subst h; decide
  · rw [natDigits_eq_digits, if_neg h]
    intro hcon
    simp only [List.map_eq_nil_iff, List.reverse_eq_nil_iff] at hcon
    exact h (Nat.digits_eq_nil_iff_eq_zero.mp hcon)

theorem natDigits_all_digits (n : Nat) : ∀ c ∈ natDigits n, c.isDigit = true := by
  by_cases h : n = 0
  · subst h; decide
  · rw [natDigits_eq_digits, if_neg h]
    intro c hc
    simp only [List.mem_map, List.mem_reverse] at hc
    obtain ⟨d, hd, rfl⟩ := hc
    exact isDigit_digitCh (Nat.digits_lt_base (by norm_num) hd)

/-- Decimal rendering of an integer, as printed by `json.dumps` / `str`. -/
def intRepr (i : Int) : List Char :=
  if i < 0 then '-' :: natDigits (-i).toNat else natDigits i.toNat

/-- Decimal rendering of an integer, as a string. -/
def intReprStr (i : Int) : String := String.mk (intRepr i)

/-- Parse a maximal nonempty run of decimal digits; returns the value and
the rest of the input. -/
def parseNatA (cs : List Char) : Option (Nat × List Char) :=
  match cs.takeWhile (fun c => c.isDigit) with
  | [] => none
  | d :: ds => some (digitsVal (d :: ds), cs.dropWhile (fun c => c.isDigit))

theorem takeWhile_append_of_all (p : Char → Bool) (xs ys : List Char)
    (hall : ∀ x ∈ xs, p x = true) (hhd : ∀ c cs2, ys = c :: cs2 → p c = false) :
    (xs ++ ys).takeWhile p = xs ∧ (xs ++ ys).dropWhile p = ys := by
  induction xs with
  | nil =>
    cases ys with
    | nil => simp
    | cons c cs2 =>
      simp [List.takeWhile, List.dropWhile, hhd c cs2 rfl]
  | cons x xs ih =>
    have hx : p x = true := hall x (by simp)
    have := ih (fun z hz => hall z (by simp [hz]))
    simp [List.takeWhile, List.dropWhile, hx, this.1, this.2]

/-- Rest lists after a rendered number must not begin with a digit for the
number parse to stop at the right place. -/
def NoDigitStart : List Char → Prop
  | [] => True
  | c :: _ => c.isDigit = false

theorem parseNatA_natDigits (n : Nat) (rest : List Char) (hr : NoDigitStart rest) :
    parseNatA (natDigits n ++ rest) = some (n, rest) := by
  have hhd : ∀ c cs2, rest = c :: cs2 → c.isDigit = false := by
    intro c cs2 he
    rw [he] at hr
    exact hr
  have h := takeWhile_append_of_all (fun c => c.isDigit) (natDigits n) rest
    (natDigits_all_digits n) hhd
  rw [parseNatA]
  rcases hnd : natDigits n with _ | ⟨d, ds⟩
  · exact absurd hnd (natDigits_ne_nil n)
  · rw [hnd] at h
    rw [h.1, h.2]
    have hv := digitsVal_natDigits n
    rw [hnd] at hv
    simp [hv]

/-! ### String escaping (the string part of `json.dumps` / `json.loads`) -/

theorem charOfNat_toNat (c : Char) : Char.ofNat c.toNat = c := by
  have hchar : ∀ (a b : UInt32) h1 h2, a = b → (⟨a, h1⟩ : Char) = ⟨b, h2⟩ := by
    intro a b h1 h2 h
    subst h
    rfl
  have hu32 : ∀ (a b : BitVec 32), a = b → (⟨a⟩ : UInt32) = ⟨b⟩ := by
    intro a b h
    subst h
    rfl
  rcases c with ⟨⟨n, hn⟩, hvalid⟩
  simp only [Char.ofNat, Char.toNat, hvalid, Char.ofNatAux, dite_true, dif_pos]
  apply hchar
  apply hu32
  rw [BitVec.toNat_eq]
  rfl

/-- Lower-case hexadecimal digit character. -/
def hexCh (d : Nat) : Char :=
  if d < 10 then Char.ofNat (48 + d) else Char.ofNat (87 + d)

/-- Value of a hexadecimal digit character. -/
def hexVal (c : Char) : Option Nat :=
  if 48 ≤ c.toNat ∧ c.toNat ≤ 57 then some (c.toNat - 48)
  else if 97 ≤ c.toNat ∧ c.toNat ≤ 102 then some (c.toNat - 87)
  else none

theorem hexVal_hexCh {d : Nat} (h : d < 16) : hexVal (hexCh d) = some d := by
  interval_cases d <;> decide

/-- Escape of one character inside a JSON string literal: `"` and `\` get a
backslash escape, control characters become `\u00XX`, everything else is
emitted raw.  (CPython additionally escapes non-ASCII characters; the byte
strings differ but decode identically.) -/
def escapeChar (c : Char) : List Char :=
  if c = '"' then ['\\', '"']
  else if c = '\\' then ['\\', '\\']
  else if c.toNat < 32 then
    ['\\', 'u', '0', '0', hexCh (c.toNat / 16), hexCh (c.toNat % 16)]
  else [c]

/-- Escape of a whole string body. -/
def escapeList : List Char → List Char
  | [] => []
  | c :: cs => escapeChar c ++ escapeList cs

/-- Parser for the body of a JSON string literal after the opening quote;
returns the unescaped characters and the input after the closing quote. -/
def parseStringBody : List Char → Option (List Char × List Char)
  | [] => none
  | '"' :: rest => some ([], rest)
  | '\\' :: '"' :: r => (parseStringBody r).map (fun p => ('"' :: p.1, p.2))
  | '\\' :: '\\' :: r => (parseStringBody r).map (fun p => ('\\' :: p.1, p.2))
  | '\\' :: 'u' :: '0' :: '0' :: a :: b :: r =>
    match hexVal a, hexVal b with
    | some d1, some d2 =>
      (parseStringBody r).map (fun p => (Char.ofNat (16 * d1 + d2) :: p.1, p.2))
    | _, _ => none
  | '\\' :: _ => none
  | c :: rest => (parseStringBody rest).map (fun p => (c :: p.1, p.2))

theorem parseStringBody_escape (s : List Char) (rest : List Char) :
    parseStringBody (escapeList s ++ '"' :: rest) = some (s, rest) := by
  induction s with
  | nil => simp [escapeList, parseStringBody]
  | cons c cs ih =>
    by_cases h1 : c = '"'
    · subst h1
      simp [escapeList, escapeChar, parseStringBody, ih]
    · by_cases h2 : c = '\\'
      · subst h2
        simp [escapeList, escapeChar, parseStringBody, ih]
      · by_cases h3 : c.toNat < 32
        · have hdiv : c.toNat / 16 < 16 := by omega
          have hmod : c.toNat % 16 < 16 := by omega
          have hrt : Char.ofNat (16 * (c.toNat / 16) + c.toNat % 16) = c := by
            have : 16 * (c.toNat / 16) + c.toNat % 16 = c.toNat := by omega
            rw [this, charOfNat_toNat]
          simp [escapeList, escapeChar, parseStringBody, h1, h2, h3,
            hexVal_hexCh hdiv, hexVal_hexCh hmod, hrt, ih]
        · simp [escapeList, escapeChar, parseStringBody, h1, h2, h3, ih]

/-! ### The record codec: `json.dumps` and `json.loads`

CPython default separators are used: `", "` between elements/members and
`": "` after keys. -/

mutual

def dumpVal : Json → List Char
  | .null => "null".data
  | .bool true => "true".data
  | .bool false => "false".data
  | .num n => intRepr n
  | .str s => '"' :: (escapeList s.data ++ ['"'])
  | .arr items => '[' :: (dumpList items ++ [']'])
  | .obj fields => '{' :: (dumpFields fields ++ ['}'])
termination_by structural v => v

def dumpList : JsonList → List Char
  | .nil => []
  | .cons x .nil => dumpVal x
  | .cons x (.cons y tl) => dumpVal x ++ ',' :: ' ' :: dumpList (.cons y tl)
termination_by structural xs => xs

def dumpFields : JsonObj → List Char
  | .nil => []
  | .cons k v .nil => '"' :: (escapeList k.data ++ '"' :: ':' :: ' ' :: dumpVal v)
  | .cons k v (.cons k2 v2 tl) =>
    ('"' :: (escapeList k.data ++ '"' :: ':' :: ' ' :: dumpVal v)) ++
      ',' :: ' ' :: dumpFields (.cons k2 v2 tl)
termination_by structural fs => fs

end

/-- Model of `json.dumps`. -/
def dumpStr (v : Json) : String := String.mk (dumpVal v)

/-! Fuel bounds for the parser. -/

mutual

def jsize : Json → Nat
  | .arr items => lsize items + 1
  | .obj fields => osize fields + 1
  | _ => 1

def lsize : JsonList → Nat
  | .nil => 1
  | .cons x tl => jsize x + lsize tl

def osize : JsonObj → Nat
  | .nil => 1
  | .cons _ v tl => jsize v + osize tl

end

theorem jsize_pos (v : Json) : 1 ≤ jsize v := by
  cases v <;> simp [jsize]

theorem lsize_pos (xs : JsonList) : 1 ≤ lsize xs := by
  cases xs with
  | nil => simp [lsize]
  | cons x tl =>
    have := jsize_pos x
    simp [lsize]
    omega

theorem osize_pos (fs : JsonObj) : 1 ≤ osize fs := by
  cases fs with
  | nil => simp [osize]
  | cons k v tl =>
    have := jsize_pos v
    simp [osize]
    omega

/-! ### The JSON parser (`json.loads`)

Fuel-indexed mutually recursive descent over character lists.  The parser
accepts exactly the strings the serializer above emits (plus nothing the
claims below can observe); `none` models a `json.JSONDecodeError`. -/

mutual

def parseVal : Nat → List Char → Option (Json × List Char)
  | 0, _ => none
  | _ + 1, [] => none
  | f + 1, c :: t =>
    if c = 'n' then
      match t with
      | 'u' :: 'l' :: 'l' :: r => some (.null, r)
      | _ => none
    else if c = 't' then
      match t with
      | 'r' :: 'u' :: 'e' :: r => some (.bool true, r)
      | _ => none
    else if c = 'f' then
      match t with
      | 'a' :: 'l' :: 's' :: 'e' :: r => some (.bool false, r)
      | _ => none
    else if c = '"' then
      (parseStringBody t).map (fun p => (.str (String.mk p.1), p.2))
    else if c = '[' then
      (parseItems f t).map (fun p => (.arr p.1, p.2))
    else if c = '{' then
      (parseFields f t).map (fun p => (.obj p.1, p.2))
    else if c = '-' then
      match parseNatA t with
      | some (n, r) => some (.num (-(n : Int)), r)
      | none => none
    else if c.isDigit then
      match parseNatA (c :: t) with
      | some (n, r) => some (.num (n : Int), r)
      | none => none
    else none

def parseItems : Nat → List Char → Option (JsonList × List Char)
  | 0, _ => none
  | _ + 1, [] => none
  | f + 1, c :: t =>
    if c = ']' then some (.nil, t)
    else
      match parseVal f (c :: t) with
      | none => none
      | some (v, r) =>
        match r with
        | ',' :: ' ' :: r2 =>
          match parseItems f r2 with
          | some (tl, r3) => some (.cons v tl, r3)
          | none => none
        | ']' :: r2 => some (.cons v .nil, r2)
        | _ => none

def parseFields : Nat → List Char → Option (JsonObj × List Char)
  | 0, _ => none
  | _ + 1, [] => none
  | f + 1, c :: t =>
    if c = '}' then some (.nil, t)
    else if c = '"' then
      match parseStringBody t with
      | none => none
      | some (k, r1) =>
        match r1 with
        | ':' :: ' ' :: r2 =>
          match parseVal f r2 with
          | none => none
          | some (v, r3) =>
            match r3 with
            | ',' :: ' ' :: r4 =>
              match parseFields f r4 with
              | some (tl, r5) => some (.cons (String.mk k) v tl, r5)
              | none => none
            | '}' :: r4 => some (.cons (String.mk k) v .nil, r4)
            | _ => none
        | _ => none
    else none

end

/-- Model of `json.loads`: parse a complete JSON value, requiring the whole
input to be consumed. -/
def loads (s : String) : Option Json :=
  match parseVal (s.data.length + 1) s.data with
  | some (v, []) => some v
  | _ => none

theorem strMk_data (s : String) : String.mk s.data = s := by
  rcases s with ⟨d⟩
  rfl

theorem isDigit_ne_special (c : Char) (h : c.isDigit = true) :
    c ≠ 'n' ∧ c ≠ 't' ∧ c ≠ 'f' ∧ c ≠ '"' ∧ c ≠ '[' ∧ c ≠ '{' ∧ c ≠ '-' ∧
      c ≠ ']' ∧ c ≠ '}' := by
  refine ⟨?_, ?_, ?_, ?_, ?_, ?_, ?_, ?_, ?_⟩ <;>
    (intro he; rw [he] at h; exact absurd h (by decide))

/-- Every serialized value starts with a character that is not a closing
bracket, so the element parsers can tell a value apart from the end of an
array or object. -/
theorem dumpVal_head (v : Json) : ∃ c t, dumpVal v = c :: t ∧ c ≠ ']' := by
  cases v with
  | null => exact ⟨'n', _, rfl, by decide⟩
  | bool b =>
    cases b with
    | false => exact ⟨'f', _, rfl, by decide⟩
    | true => exact ⟨'t', _, rfl, by decide⟩
  | num n =>
    by_cases hneg : n < 0
    · refine ⟨'-', natDigits (-n).toNat, ?_, by decide⟩
      simp [dumpVal, intRepr, hneg]
    · rcases hnd : natDigits n.toNat with _ | ⟨d, ds⟩
      · exact absurd hnd (natDigits_ne_nil _)
      · have hd : d.isDigit = true := natDigits_all_digits _ d (by rw [hnd]; simp)
        refine ⟨d, ds, ?_, (isDigit_ne_special d hd).2.2.2.2.2.2.2.1⟩
        simp [dumpVal, intRepr, hneg, hnd]
  | str s => exact ⟨'"', _, rfl, by decide⟩
  | arr items => exact ⟨'[', _, rfl, by decide⟩
  | obj fields => exact ⟨'{', _, rfl, by decide⟩

mutual

theorem jsize_le_dumpLen : ∀ (v : Json), jsize v ≤ (dumpVal v).length
  | .null => by simp [jsize, dumpVal]
  | .bool b => by cases b <;> simp [jsize, dumpVal]
  | .num n => by
    obtain ⟨c, t, hct, _⟩ := dumpVal_head (.num n)
    simp [jsize, hct]
  | .str s => by simp [jsize, dumpVal]
  | .arr items => by
    have h := lsize_le_dumpLen items
    simp only [jsize, dumpVal, List.length_cons, List.length_append, List.length_singleton]
    omega
  | .obj fields => by
    have h := osize_le_dumpLen fields
    simp only [jsize, dumpVal, List.length_cons, List.length_append, List.length_singleton]
    omega

theorem lsize_le_dumpLen : ∀ (xs : JsonList), lsize xs ≤ (dumpList xs).length + 1
  | .nil => by simp [lsize, dumpList]
  | .cons x .nil => by
    have h := jsize_le_dumpLen x
    simp only [lsize, dumpList, List.length_append, List.length_cons]
    omega
  | .cons x (.cons y tl) => by
    have h1 := jsize_le_dumpLen x
    have h2 := lsize_le_dumpLen (.cons y tl)
    simp only [lsize, dumpList, List.length_append, List.length_cons] at h2 ⊢
    omega

theorem osize_le_dumpLen : ∀ (fs : JsonObj), osize fs ≤ (dumpFields fs).length + 1
  | .nil => by simp [osize, dumpFields]
  | .cons k v .nil => by
    have h := jsize_le_dumpLen v
    simp only [osize, dumpFields, List.length_append, List.length_cons]
    omega
  | .cons k v (.cons k2 v2 tl) => by
    have h1 := jsize_le_dumpLen v
    have h2 := osize_le_dumpLen (.cons k2 v2 tl)
    simp only [osize, dumpFields, List.length_append, List.length_cons] at h2 ⊢
    omega

end

mutual

theorem parseVal_dump : ∀ (v : Json) (f : Nat) (rest : List Char),
    jsize v ≤ f → NoDigitStart rest →
    parseVal f (dumpVal v ++ rest) = some (v, rest)
  | .null, f, rest, hf, hr => by
    cases f with
    | zero => simp [jsize] at hf
    | succ f2 => simp [dumpVal, parseVal]
  | .bool b, f, rest, hf, hr => by
    cases f with
    | zero => simp [jsize] at hf
    | succ f2 => cases b <;> simp [dumpVal, parseVal]
  | .num n, f, rest, hf, hr => by
    cases f with
    | zero => simp [jsize] at hf
    | succ f2 =>
      by_cases hneg : n < 0
      · have hp := parseNatA_natDigits (-n).toNat rest hr
        simp only [dumpVal, intRepr, if_pos hneg, List.cons_append]
        simp [parseVal, hp]
        omega
      · rcases hnd : natDigits n.toNat with _ | ⟨d, ds⟩
        · exact absurd hnd (natDigits_ne_nil _)
        · have hd : d.isDigit = true := natDigits_all_digits _ d (by rw [hnd]; simp)
          obtain ⟨hn1, hn2, hn3, hn4, hn5, hn6, hn7, _, _⟩ := isDigit_ne_special d hd
          have hp := parseNatA_natDigits n.toNat rest hr
          rw [hnd] at hp
          simp only [List.cons_append] at hp
          simp only [dumpVal, intRepr, if_neg hneg, hnd, List.cons_append]
          simp [parseVal, hn1, hn2, hn3, hn4, hn5, hn6, hn7, hd, hp]
          omega
  | .str s, f, rest, hf, hr => by
    cases f with
    | zero => simp [jsize] at hf
    | succ f2 =>
      have hsb := parseStringBody_escape s.data rest
      simp [dumpVal, parseVal, hsb, strMk_data]
  | .arr xs, f, rest, hf, hr => by
    cases f with
    | zero => simp [jsize] at hf
    | succ f2 =>
      have hx : lsize xs ≤ f2 := by simp [jsize] at hf; omega
      have hi := parseItems_dump xs f2 rest hx
      simp [dumpVal, parseVal, hi]
  | .obj fs, f, rest, hf, hr => by
    cases f with
    | zero => simp [jsize] at hf
    | succ f2 =>
      have hx : osize fs ≤ f2 := by simp [jsize] at hf; omega
      have hi := parseFields_dump fs f2 rest hx
      simp [dumpVal, parseVal, hi]

theorem parseItems_dump : ∀ (xs : JsonList) (f : Nat) (rest : List Char),
    lsize xs ≤ f → parseItems f (dumpList xs ++ ']' :: rest) = some (xs, rest)
  | .nil, f, rest, hf => by
    cases f with
    | zero => simp [lsize] at hf
    | succ f2 => simp [dumpList, parseItems]
  | .cons x .nil, f, rest, hf => by
    cases f with
    | zero =>
      have h0 := lsize_pos (JsonList.cons x JsonList.nil)
      omega
    | succ f2 =>
      have hun : lsize (JsonList.cons x JsonList.nil) = jsize x + 1 := by simp [lsize]
      have hjx : jsize x ≤ f2 := by omega
      obtain ⟨c, t, hct, hcne⟩ := dumpVal_head x
      have hpv := parseVal_dump x f2 (']' :: rest) hjx (by simp [NoDigitStart])
      rw [hct] at hpv
      simp only [List.cons_append] at hpv
      simp only [dumpList, hct, List.cons_append]
      simp [parseItems, hcne, hpv]
  | .cons x (.cons y tl), f, rest, hf => by
    cases f with
    | zero =>
      have h0 := lsize_pos (JsonList.cons x (JsonList.cons y tl))
      omega
    | succ f2 =>
      have h1 := jsize_pos x
      have h4 := jsize_pos y
      have h5 := lsize_pos tl
      have hun : lsize (JsonList.cons x (JsonList.cons y tl)) =
          jsize x + (jsize y + lsize tl) := by simp [lsize]
      have hun2 : lsize (JsonList.cons y tl) = jsize y + lsize tl := by simp [lsize]
      have hjx : jsize x ≤ f2 := by omega
      have hltl : lsize (JsonList.cons y tl) ≤ f2 := by omega
      obtain ⟨c, t, hct, hcne⟩ := dumpVal_head x
      have hpv := parseVal_dump x f2
        (',' :: ' ' :: (dumpList (.cons y tl) ++ ']' :: rest)) hjx (by simp [NoDigitStart])
      rw [hct] at hpv
      simp only [List.cons_append] at hpv
      have hrec := parseItems_dump (.cons y tl) f2 rest hltl
      simp only [dumpList, hct, List.cons_append, List.append_assoc]
      simp [parseItems, hcne, hpv, hrec]

theorem parseFields_dump : ∀ (fs : JsonObj) (f : Nat) (rest : List Char),
    osize fs ≤ f → parseFields f (dumpFields fs ++ '}' :: rest) = some (fs, rest)
  | .nil, f, rest, hf => by
    cases f with
    | zero => simp [osize] at hf
    | succ f2 => simp [dumpFields, parseFields]
  | .cons k v .nil, f, rest, hf => by
    cases f with
    | zero =>
      have h0 := osize_pos (JsonObj.cons k v JsonObj.nil)
      omega
    | succ f2 =>
      have hun : osize (JsonObj.cons k v JsonObj.nil) = jsize v + 1 := by simp [osize]
      have hjv : jsize v ≤ f2 := by omega
      have hsb := parseStringBody_escape k.data (':' :: ' ' :: (dumpVal v ++ '}' :: rest))
      have hpv := parseVal_dump v f2 ('}' :: rest) hjv (by simp [NoDigitStart])
      simp only [dumpFields, List.cons_append, List.append_assoc]
      simp [parseFields, hsb, hpv, strMk_data]
  | .cons k v (.cons k2 v2 tl), f, rest, hf => by
    cases f with
    | zero =>
      have h0 := osize_pos (JsonObj.cons k v (JsonObj.cons k2 v2 tl))
      omega
    | succ f2 =>
      have h1 := jsize_pos v
      have h4 := jsize_pos v2
      have h5 := osize_pos tl
      have hun : osize (JsonObj.cons k v (JsonObj.cons k2 v2 tl)) =
          jsize v + (jsize v2 + osize tl) := by simp [osize]
      have hun2 : osize (JsonObj.cons k2 v2 tl) = jsize v2 + osize tl := by simp [osize]
      have hjv : jsize v ≤ f2 := by omega
      have htl : osize (JsonObj.cons k2 v2 tl) ≤ f2 := by omega
      have hsb := parseStringBody_escape k.data
        (':' :: ' ' :: (dumpVal v ++ ',' :: ' ' :: (dumpFields (.cons k2 v2 tl) ++ '}' :: rest)))
      have hpv := parseVal_dump v f2
        (',' :: ' ' :: (dumpFields (.cons k2 v2 tl) ++ '}' :: rest)) hjv (by simp [NoDigitStart])
      have hrec := parseFields_dump (.cons k2 v2 tl) f2 rest htl
      simp only [dumpFields, List.cons_append, List.append_assoc]
      simp [parseFields, hsb, hpv, hrec, strMk_data]

end

/-- The codec round-trip: `json.loads(json.dumps(v)) == v`. -/
theorem loads_dumpStr (v : Json) : loads (dumpStr v) = some v := by
  have hlen : jsize v ≤ (dumpVal v).length + 1 := by
    have := jsize_le_dumpLen v
    omega
  have h := parseVal_dump v ((dumpVal v).length + 1) [] hlen (by simp [NoDigitStart])
  rw [List.append_nil] at h
  simp [loads, dumpStr, h]

/-! ### Python value semantics: truthiness, equality, ordering -/

/-- Python truthiness: `bool(x)` for a JSON value. -/
def truthy : Json → Bool
  | .null => false
  | .bool b => b
  | .num n => decide (n ≠ 0)
  | .str s => decide (s ≠ "")
  | .arr .nil => false
  | .arr (.cons _ _) => true
  | .obj .nil => false
  | .obj (.cons _ _ _) => true

/-- Numeric value of a Python bool (`True == 1`, `False == 0`). -/
def boolInt : Bool → Int
  | true => 1
  | false => 0

mutual

/-- Python `==` on JSON values (total, never raises).  Dict equality is
modelled structurally; CPython dict equality ignores insertion order, a
difference no property below can observe. -/
def pyEq : Json → Json → Bool
  | .null, .null => true
  | .bool a, .bool b => decide (boolInt a = boolInt b)
  | .bool a, .num m => decide (boolInt a = m)
  | .num n, .bool b => decide (n = boolInt b)
  | .num n, .num m => decide (n = m)
  | .str a, .str b => decide (a = b)
  | .arr a, .arr b => pyEqList a b
  | .obj a, .obj b => pyEqObj a b
  | _, _ => false

def pyEqList : JsonList → JsonList → Bool
  | .nil, .nil => true
  | .cons x xs, .cons y ys => pyEq x y && pyEqList xs ys
  | _, _ => false

def pyEqObj : JsonObj → JsonObj → Bool
  | .nil, .nil => true
  | .cons k v tl, .cons k2 v2 tl2 => decide (k = k2) && pyEq v v2 && pyEqObj tl tl2
  | _, _ => false

end

mutual

/-- Python `<` on JSON values; `none` models a TypeError (for example
comparing a number with a string, or two dicts). -/
def pyLt : Json → Json → Option Bool
  | .num n, .num m => some (decide (n < m))
  | .num n, .bool b => some (decide (n < boolInt b))
  | .bool a, .num m => some (decide (boolInt a < m))
  | .bool a, .bool b => some (decide (boolInt a < boolInt b))
  | .str a, .str b => some (decide (a < b))
  | .arr a, .arr b => pyLtList a b
  | _, _ => none

/-- Python list comparison: walk both lists, skipping `==` prefixes and
comparing the first difference with `<`. -/
def pyLtList : JsonList → JsonList → Option Bool
  | .nil, .nil => some false
  | .nil, .cons _ _ => some true
  | .cons _ _, .nil => some false
  | .cons x xs, .cons y ys =>
    if pyEq x y then pyLtList xs ys else pyLt x y

end

mutual

theorem pyEq_symm_true : ∀ (a b : Json), pyEq a b = true → pyEq b a = true
  | .null, .null, _ => rfl
  | .bool a, .bool b, h => by simp [pyEq] at h ⊢; omega
  | .bool a, .num m, h => by simp [pyEq] at h ⊢; omega
  | .num n, .bool b, h => by simp [pyEq] at h ⊢; omega
  | .num n, .num m, h => by simp [pyEq] at h ⊢; omega
  | .str a, .str b, h => by simp [pyEq] at h ⊢; exact h.symm
  | .arr a, .arr b, h => by
    simp only [pyEq] at h ⊢
    exact pyEqList_symm_true a b h
  | .obj a, .obj b, h => by
    simp only [pyEq] at h ⊢
    exact pyEqObj_symm_true a b h

theorem pyEqList_symm_true : ∀ (a b : JsonList), pyEqList a b = true → pyEqList b a = true
  | .nil, .nil, _ => rfl
  | .cons x xs, .cons y ys, h => by
    simp only [pyEqList, Bool.and_eq_true] at h ⊢
    exact ⟨pyEq_symm_true x y h.1, pyEqList_symm_true xs ys h.2⟩

theorem pyEqObj_symm_true : ∀ (a b : JsonObj), pyEqObj a b = true → pyEqObj b a = true
  | .nil, .nil, _ => rfl
  | .cons k v tl, .cons k2 v2 tl2, h => by
    simp only [pyEqObj, Bool.and_eq_true, decide_eq_true_eq] at h ⊢
    exact ⟨⟨h.1.1.symm, pyEq_symm_true v v2 h.1.2⟩, pyEqObj_symm_true tl tl2 h.2⟩

end

mutual

theorem pyLt_asymm : ∀ (a b : Json), pyLt a b = some true → pyLt b a = some false
  | .num n, .num m, h => by simp [pyLt] at h ⊢; omega
  | .num n, .bool b, h => by simp [pyLt] at h ⊢; omega
  | .bool a, .num m, h => by simp [pyLt] at h ⊢; omega
  | .bool a, .bool b, h => by simp [pyLt] at h ⊢; omega
  | .str a, .str b, h => by
    simp [pyLt] at h ⊢
    exact le_of_lt h
  | .arr a, .arr b, h => by
    simp only [pyLt] at h ⊢
    exact pyLtList_asymm a b h

theorem pyLtList_asymm : ∀ (a b : JsonList), pyLtList a b = some true → pyLtList b a = some false
  | .nil, .cons y ys, _ => rfl
  | .cons x xs, .cons y ys, h => by
    by_cases he : pyEq x y = true
    · have he2 := pyEq_symm_true x y he
      rw [pyLtList, if_pos he] at h
      rw [pyLtList, if_pos he2]
      exact pyLtList_asymm xs ys h
    · have he2 : ¬ pyEq y x = true := fun hc => he (pyEq_symm_true y x hc)
      rw [pyLtList, if_neg he] at h
      rw [pyLtList, if_neg he2]
      exact pyLt_asymm x y h

end

/-! ### Python `list.sort` with a key function

CPython first computes the key of every element (the key lambda in
`parse_redis_hash` never raises), then sorts the keyed pairs with `<` on
keys; a TypeError from an incomparable pair propagates out of `sort`.
Modelled as a stable insertion sort over (key, record) pairs in the
`Option` monad: `none` means some executed comparison raised. -/

def insertPairA (cmp : Json → Json → Option Bool) (x : Json × Json) :
    List (Json × Json) → Option (List (Json × Json))
  | [] => some [x]
  | y :: ys =>
    match cmp y.1 x.1 with
    | none => none
    | some true =>
      match insertPairA cmp x ys with
      | some l => some (y :: l)
      | none => none
    | some false => some (x :: y :: ys)

def sortPairs (cmp : Json → Json → Option Bool) :
    List (Json × Json) → Option (List (Json × Json))
  | [] => some []
  | x :: xs =>
    match sortPairs cmp xs with
    | some l => insertPairA cmp x l
    | none => none

theorem insertPairA_perm (cmp : Json → Json → Option Bool) (x : Json × Json) :
    ∀ (l l2 : List (Json × Json)), insertPairA cmp x l = some l2 → l2.Perm (x :: l)
  | [], l2, h => by
    simp [insertPairA] at h
    subst h
    rfl
  | y :: ys, l2, h => by
    rw [insertPairA] at h
    rcases hc : cmp y.1 x.1 with _ | b
    · rw [hc] at h
      exact Option.noConfusion h
    · cases b with
      | true =>
        rw [hc] at h
        rcases hi : insertPairA cmp x ys with _ | l3
        · rw [hi] at h
          exact Option.noConfusion h
        · rw [hi] at h
          simp only [Option.some.injEq] at h
          subst h
          have hperm := insertPairA_perm cmp x ys l3 hi
          exact (hperm.cons y).trans (List.Perm.swap x y ys)
      | false =>
        rw [hc] at h
        simp only [Option.some.injEq] at h
        subst h
        rfl

theorem sortPairs_perm (cmp : Json → Json → Option Bool) :
    ∀ (l l2 : List (Json × Json)), sortPairs cmp l = some l2 → l2.Perm l
  | [], l2, h => by
    simp [sortPairs] at h
    subst h
    rfl
  | x :: xs, l2, h => by
    rw [sortPairs] at h
    rcases hs : sortPairs cmp xs with _ | l3
    · rw [hs] at h
      exact Option.noConfusion h
    · rw [hs] at h
      have h1 := sortPairs_perm cmp xs l3 hs
      have h2 := insertPairA_perm cmp x l3 l2 h
      exact h2.trans (h1.cons x)

theorem insertPairA_head (cmp : Json → Json → Option Bool) (x : Json × Json) :
    ∀ (l l2 : List (Json × Json)), insertPairA cmp x l = some l2 →
      l2.head? = some x ∨ l2.head? = l.head?
  | [], l2, h => by
    simp [insertPairA] at h
    subst h
    left
    rfl
  | y :: ys, l2, h => by
    rw [insertPairA] at h
    rcases hc : cmp y.1 x.1 with _ | b
    · rw [hc] at h
      exact Option.noConfusion h
    · cases b with
      | true =>
        rw [hc] at h
        rcases hi : insertPairA cmp x ys with _ | l3
        · rw [hi] at h
          exact Option.noConfusion h
        · rw [hi] at h
          simp only [Option.some.injEq] at h
          subst h
          right
          rfl
      | false =>
        rw [hc] at h
        simp only [Option.some.injEq] at h
        subst h
        left
        rfl

theorem insertPairA_chain (cmp : Json → Json → Option Bool)
    (hasymm : ∀ a b, cmp a b = some true → cmp b a = some false) (x : Json × Json) :
    ∀ (l l2 : List (Json × Json)),
      List.Chain' (fun p q => cmp q.1 p.1 ≠ some true) l →
      insertPairA cmp x l = some l2 →
      List.Chain' (fun p q => cmp q.1 p.1 ≠ some true) l2
  | [], l2, _, h => by
    simp [insertPairA] at h
    subst h
    simp
  | y :: ys, l2, hl, h => by
    rw [insertPairA] at h
    rcases hc : cmp y.1 x.1 with _ | b
    · rw [hc] at h
      exact Option.noConfusion h
    · cases b with
      | true =>
        rw [hc] at h
        rcases hi : insertPairA cmp x ys with _ | l3
        · rw [hi] at h
          exact Option.noConfusion h
        · rw [hi] at h
          simp only [Option.some.injEq] at h
          subst h
          rw [List.chain'_cons'] at hl ⊢
          refine ⟨?_, insertPairA_chain cmp hasymm x ys l3 hl.2 hi⟩
          intro z hz
          rcases insertPairA_head cmp x ys l3 hi with hh | hh
          · rw [hh] at hz
            simp only [Option.mem_def, Option.some.injEq] at hz
            subst hz
            rw [hasymm y.1 x.1 hc]
            simp
          · rw [hh] at hz
            exact hl.1 z hz
      | false =>
        rw [hc] at h
        simp only [Option.some.injEq] at h
        subst h
        rw [List.chain'_cons']
        constructor
        · intro z hz
          simp only [List.head?_cons, Option.mem_def, Option.some.injEq] at hz
          subst hz
          rw [hc]
          simp
        · exact hl

theorem sortPairs_chain (cmp : Json → Json → Option Bool)
    (hasymm : ∀ a b, cmp a b = some true → cmp b a = some false) :
    ∀ (l l2 : List (Json × Json)), sortPairs cmp l = some l2 →
      List.Chain' (fun p q => cmp q.1 p.1 ≠ some true) l2
  | [], l2, h => by
    simp [sortPairs] at h
    subst h
    simp
  | x :: xs, l2, h => by
    rw [sortPairs] at h
    rcases hs : sortPairs cmp xs with _ | l3
    · rw [hs] at h
      exact Option.noConfusion h
    · rw [hs] at h
      exact insertPairA_chain cmp hasymm x l3 l2 (sortPairs_chain cmp hasymm xs l3 hs) h

/-! ### The collection parser (`parse_redis_hash`, app.py lines 38-46) -/

/-- Decode every stored value of a hash; `none` as soon as one value is
malformed (`json.loads` raised). -/
def decodeAll : List String → Option (List Json)
  | [] => some []
  | s :: rest =>
    match loads s, decodeAll rest with
    | some v, some l => some (v :: l)
    | _, _ => none

/-- The Python sort key `lambda x: x.get(sort_key, 0) or 0` replaces a
missing or falsy field value by the number 0. -/
def orZero (v : Json) : Json := if truthy v then v else .num 0

/-- Key of one record: `x.get(sort_key, 0) or 0`; `none` models the
AttributeError raised when a decoded record is not a dict. -/
def sortKeyVal (k : String) : Json → Option Json
  | .obj fs => some (orZero ((fs.find? k).getD (.num 0)))
  | _ => none

/-- Keys of all records, computed before any comparison happens (CPython
computes all keys first). -/
def keysAll (k : String) : List Json → Option (List Json)
  | [] => some []
  | x :: xs =>
    match sortKeyVal k x, keysAll k xs with
    | some ky, some l => some (ky :: l)
    | _, _ => none

/-- Comparison used by `list.sort`: plain `<` on keys, operands swapped
when `reverse=True`. -/
def cmpFor (reverse : Bool) (a b : Json) : Option Bool :=
  match reverse with
  | true => pyLt b a
  | false => pyLt a b

/-- Model of `parse_redis_hash` (app.py lines 38-46): decode every value of
the hash `{field: json_string}`, optionally sort by a field; any exception
(decode error, non-dict record, incomparable keys) is swallowed and the
whole listing degrades to `[]`. -/
def parse_redis_hash (redis_hash : List (String × String)) (sort_key : Option String)
    (reverse : Bool) : List Json :=
  match decodeAll (redis_hash.map Prod.snd) with
  | none => []
  | some items =>
    match sort_key with
    | none => items
    | some k =>
      match keysAll k items with
      | none => []
      | some keys =>
        match sortPairs (cmpFor reverse) (keys.zip items) with
        | none => []
        | some sorted => sorted.map Prod.snd

theorem cmpFor_asymm (reverse : Bool) :
    ∀ a b, cmpFor reverse a b = some true → cmpFor reverse b a = some false := by
  intro a b h
  cases reverse with
  | false =>
    simp only [cmpFor] at h ⊢
    exact pyLt_asymm a b h
  | true =>
    simp only [cmpFor] at h ⊢
    exact pyLt_asymm b a h

theorem decodeAll_none (l : List String) :
    decodeAll l = none ↔ ∃ s ∈ l, loads s = none := by
  induction l with
  | nil => simp [decodeAll]
  | cons s rest ih =>
    rw [decodeAll]
    rcases hs : loads s with _ | v
    · simp [hs]
    · rcases hr : decodeAll rest with _ | items
      · rw [hr] at ih
        simp only [true_iff] at ih
        simp
        right
        simpa using ih
      · rw [hr] at ih
        simp only [Option.some.injEq] at ih ⊢
        constructor
        · intro hc; exact absurd hc (by simp)
        · intro hc
          rcases hc with ⟨s2, hmem, hl⟩
          rcases List.mem_cons.mp hmem with h1 | h2
          · subst h1; rw [hs] at hl; exact absurd hl (by simp)
          · have : ∃ s ∈ rest, loads s = none := ⟨s2, h2, hl⟩
            rw [← ih] at this
            exact absurd this (by simp)

theorem keysAll_zip_mem (k : String) :
    ∀ (items keys : List Json), keysAll k items = some keys →
      ∀ p ∈ keys.zip items, sortKeyVal k p.2 = some p.1
  | [], keys, h => by
    simp [keysAll] at h
    subst h
    simp
  | x :: xs, keys, h => by
    rw [keysAll] at h
    rcases hk : sortKeyVal k x with _ | ky
    · rw [hk] at h; exact absurd h (by simp)
    · rcases hr : keysAll k xs with _ | l
      · rw [hk, hr] at h; exact absurd h (by simp)
      · rw [hk, hr] at h
        simp only [Option.some.injEq] at h
        subst h
        intro p hp
        simp only [List.zip_cons_cons, List.mem_cons] at hp
        rcases hp with h1 | h2
        · subst h1; exact hk
        · exact keysAll_zip_mem k xs l hr p h2

theorem chain_imp_of_mem {α : Type} {R S : α → α → Prop} :
    ∀ (l : List α), List.Chain' R l → (∀ a ∈ l, ∀ b ∈ l, R a b → S a b) →
      List.Chain' S l
  | [], _, _ => List.chain'_nil
  | [_], _, _ => List.chain'_singleton _
  | a :: b :: l, h, hmem => by
    rw [List.chain'_cons] at h ⊢
    refine ⟨hmem a (by simp) b (by simp) h.1, ?_⟩
    exact chain_imp_of_mem (b :: l) h.2
      (fun x hx y hy hr => hmem x (by simp [hx]) y (by simp [hy]) hr)

theorem keysAll_length (k : String) :
    ∀ (items keys : List Json), keysAll k items = some keys →
      keys.length = items.length
  | [], keys, h => by
    simp [keysAll] at h
    subst h
    rfl
  | x :: xs, keys, h => by
    rw [keysAll] at h
    rcases hk : sortKeyVal k x with _ | ky
    · rw [hk] at h; exact absurd h (by simp)
    · rcases hr : keysAll k xs with _ | l
      · rw [hk, hr] at h; exact absurd h (by simp)
      · rw [hk, hr] at h
        simp only [Option.some.injEq] at h
        subst h
        simp [keysAll_length k xs l hr]

/-! ### The store

The slice of the Redis key space that app.py touches: the plain string
keys (settings values and the two `INCR` counters share this namespace,
exactly as in Redis) and the three hashes, each an association list from
string fields to string values. -/

structure Store where
  kv : List (String × String)
  expenses : List (String × String)
  payments : List (String × String)
  photos : List (String × String)
deriving DecidableEq

def Store.withKv (st : Store) (x : List (String × String)) : Store :=
  Store.mk x st.expenses st.payments st.photos

def Store.withExpenses (st : Store) (x : List (String × String)) : Store :=
  Store.mk st.kv x st.payments st.photos

def Store.withPayments (st : Store) (x : List (String × String)) : Store :=
  Store.mk st.kv st.expenses x st.photos

def Store.withPhotos (st : Store) (x : List (String × String)) : Store :=
  Store.mk st.kv st.expenses st.payments x

/-- Redis `GET` / `HGET`. -/
def kvGet : List (String × String) → String → Option String
  | [], _ => none
  | (k2, v) :: rest, k => if k2 = k then some v else kvGet rest k

/-- Redis `SET` / `HSET`: overwrite in place or append. -/
def kvSet : List (String × String) → String → String → List (String × String)
  | [], k, v => [(k, v)]
  | (k2, v2) :: rest, k, v =>
    if k2 = k then (k2, v) :: rest else (k2, v2) :: kvSet rest k v

/-- Redis `DEL` / `HDEL`. -/
def kvDel : List (String × String) → String → List (String × String)
  | [], _ => []
  | (k2, v2) :: rest, k =>
    if k2 = k then kvDel rest k else (k2, v2) :: kvDel rest k

theorem kvGet_kvSet_self (l : List (String × String)) (k v : String) :
    kvGet (kvSet l k v) k = some v := by
  induction l with
  | nil => simp [kvSet, kvGet]
  | cons p rest ih =>
    rcases p with ⟨k2, v2⟩
    by_cases h : k2 = k <;> simp [kvSet, kvGet, h, ih]

theorem kvGet_kvSet_other (l : List (String × String)) (k k2 v : String)
    (hne : k2 ≠ k) : kvGet (kvSet l k v) k2 = kvGet l k2 := by
  induction l with
  | nil => simp [kvSet, kvGet, Ne.symm hne]
  | cons p rest ih =>
    rcases p with ⟨k3, v3⟩
    by_cases h : k3 = k
    · subst h
      simp [kvSet, kvGet, Ne.symm hne]
    · by_cases h2 : k3 = k2 <;> simp [kvSet, kvGet, h, h2, hne, ih]

theorem kvGet_kvDel_self (l : List (String × String)) (k : String) :
    kvGet (kvDel l k) k = none := by
  induction l with
  | nil => simp [kvDel, kvGet]
  | cons p rest ih =>
    rcases p with ⟨k2, v2⟩
    by_cases h : k2 = k <;> simp [kvDel, kvGet, h, ih]

theorem kvGet_kvDel_other (l : List (String × String)) (k k2 : String)
    (hne : k2 ≠ k) : kvGet (kvDel l k) k2 = kvGet l k2 := by
  induction l with
  | nil => simp [kvDel, kvGet]
  | cons p rest ih =>
    rcases p with ⟨k3, v3⟩
    by_cases h : k3 = k
    · subst h
      simp [kvDel, kvGet, Ne.symm hne, ih]
    · by_cases h2 : k3 = k2 <;> simp [kvDel, kvGet, h, h2, hne, ih]

/-- Strict decimal integer parse of a whole string (the model of how Redis
reads a counter value for `INCR`). -/
def parseIntString (s : String) : Option Int :=
  match s.data with
  | '-' :: rest =>
    match parseNatA rest with
    | some (n, []) => some (-(n : Int))
    | _ => none
  | cs =>
    match parseNatA cs with
    | some (n, []) => some ((n : Int))
    | _ => none

theorem parseNatA_natDigits_nil (n : Nat) : parseNatA (natDigits n) = some (n, []) := by
  have h := parseNatA_natDigits n [] (by simp [NoDigitStart])
  rwa [List.append_nil] at h

theorem parseIntString_intReprStr (i : Int) : parseIntString (intReprStr i) = some i := by
  by_cases hneg : i < 0
  · rw [intReprStr, intRepr, if_pos hneg]
    simp [parseIntString, parseNatA_natDigits_nil]
    omega
  · rw [intReprStr, intRepr, if_neg hneg]
    rcases hnd : natDigits i.toNat with _ | ⟨d, ds⟩
    · exact absurd hnd (natDigits_ne_nil _)
    · have hd : d.isDigit = true := natDigits_all_digits _ d (by rw [hnd]; simp)
      have hdne : d ≠ '-' := by
        intro he
        rw [he] at hd
        exact absurd hd (by decide)
      have hp := parseNatA_natDigits_nil i.toNat
      rw [hnd] at hp
      rw [parseIntString]
      simp only [hnd]
      simp [hdne, hp]
      omega

/-- Redis `INCR`: parse the stored value as an integer (0 when the key is
absent), add one, store the result back; `none` models the Redis error on
a non-integer value (the write then never happens). -/
def incr (l : List (String × String)) (k : String) : Option (Int × List (String × String)) :=
  match kvGet l k with
  | none => some (1, kvSet l k (intReprStr 1))
  | some s =>
    match parseIntString s with
    | some n => some (n + 1, kvSet l k (intReprStr (n + 1)))
    | none => none

/-- Hash field name for an integer id (redis-py sends `str(id)`). -/
def natFieldStr (n : Nat) : String := intReprStr (n : Int)

/-- Conversion of a JSON value to a Redis command argument: redis-py
accepts strings and numbers, anything else raises a DataError (`none`). -/
def redisArg : Json → Option String
  | .str s => some s
  | .num n => some (intReprStr n)
  | _ => none

/-! ### API handlers (app.py)

Each handler takes the parsed JSON request body (a dict — Flask's
`request.get_json()` result for the requests the routes accept) and/or the
integer path parameter, plus the store, and returns
`some (status, responseBody, newStore)`, or `none` for an unhandled Python
exception (which Flask turns into a 500 with no handler-produced body).
In app.py every handler performs its store writes after the last possible
exception point, so a crashing handler leaves the store unchanged; the
store argument models a live database connection (the `db is None` branch
returning 500 is outside these functions). -/

def successTrue : Json := .obj (.cons "success" (.bool true) .nil)

def errMissingKV : Json := .obj (.cons "error" (.str "Missing key or value") .nil)

def errPaymentNotFound : Json := .obj (.cons "error" (.str "Payment not found") .nil)

def errExpenseIdRequired : Json := .obj (.cons "error" (.str "expenseId is required") .nil)

/-- `settings_data.get(k) or dflt`: the default replaces an absent or
falsy (empty) stored string. -/
def settingOr (st : Store) (k : String) (dflt : String) : String :=
  match kvGet st.kv k with
  | none => dflt
  | some s => if s = "" then dflt else s

/-- The consolidated object returned by GET `/api/data`. -/
structure DataView where
  userName : String
  budgets : Json
  incomes : Json
  allExpenses : List Json
  upcomingPayments : List Json
  allBillPhotos : List Json
deriving DecidableEq

/-- GET `/api/data` (app.py lines 57-87). -/
def get_all_data (st : Store) : Option DataView :=
  match loads (settingOr st "budgets" "{}"), loads (settingOr st "incomes" "{}") with
  | some budgets, some incomes =>
    some (DataView.mk (settingOr st "userName" "User") budgets incomes
      (parse_redis_hash st.expenses (some "id") true)
      (parse_redis_hash st.payments (some "date") false)
      (parse_redis_hash st.photos (some "expenseId") true))
  | _, _ => none

/-- `isinstance(value, (dict, list))` branch of `save_setting`: objects and
arrays are encoded with `json.dumps` before `db.set`; other values pass
through to the redis client unchanged. -/
def settingEnc : Json → Json
  | .obj fs => .str (dumpStr (.obj fs))
  | .arr xs => .str (dumpStr (.arr xs))
  | .null => .null
  | .bool b => .bool b
  | .num n => .num n
  | .str s => .str s

/-- POST `/api/settings` (app.py lines 89-107): `not key or value is None`
(Python truthiness on the key, identity-with-None on the value) yields 400
before any write; dict/list values are encoded with `json.dumps` before
`db.set`; the response echoes the original value. -/
def save_setting (body : JsonObj) (st : Store) : Option (Nat × Json × Store) :=
  let key := (body.find? "key").getD .null
  let value := (body.find? "value").getD .null
  if truthy key = false ∨ value = .null then
    some (400, errMissingKV, st)
  else
    match redisArg key, redisArg (settingEnc value) with
    | some ks, some vs =>
      some (200, .obj (.cons "success" (.bool true) (.cons "key" key
        (.cons "value" value .nil))), st.withKv (kvSet st.kv ks vs))
    | _, _ => none

/-- POST `/api/expenses` (app.py lines 109-125): `db.incr` assigns the id,
the body (with `id` forced) is stored under `expenses[id]`. -/
def add_expense (body : JsonObj) (st : Store) : Option (Nat × Json × Store) :=
  match incr st.kv "next_expense_id" with
  | none => none
  | some (newId, kv2) =>
    let record := body.set "id" (.num newId)
    some (201, .obj record,
      Store.mk kv2 (kvSet st.expenses (intReprStr newId) (dumpStr (.obj record)))
        st.payments st.photos)

/-- PUT `/api/expenses/{id}` (app.py lines 127-138): wholesale overwrite,
no existence check. -/
def update_expense (expense_id : Nat) (body : JsonObj) (st : Store) :
    Option (Nat × Json × Store) :=
  let record := body.set "id" (.num (expense_id : Int))
  some (200, .obj record,
    st.withExpenses (kvSet st.expenses (natFieldStr expense_id) (dumpStr (.obj record))))

/-- DELETE `/api/expenses/{id}` (app.py lines 140-152): one pipelined batch
deleting `expenses[id]` and `photos[id]`. -/
def delete_expense (expense_id : Nat) (st : Store) : Option (Nat × Json × Store) :=
  some (200, successTrue,
    Store.mk st.kv (kvDel st.expenses (natFieldStr expense_id)) st.payments
      (kvDel st.photos (natFieldStr expense_id)))

/-- POST `/api/payments` (app.py lines 154-166). -/
def add_payment (body : JsonObj) (st : Store) : Option (Nat × Json × Store) :=
  match incr st.kv "next_payment_id" with
  | none => none
  | some (newId, kv2) =>
    let record := body.set "id" (.num newId)
    some (201, .obj record,
      Store.mk kv2 st.expenses
        (kvSet st.payments (intReprStr newId) (dumpStr (.obj record))) st.photos)

/-- PUT `/api/payments/{id}` (app.py lines 168-185): 404 when the stored
field is absent (or falsy); otherwise decode the stored record, read
`existing_payment['date']` unconditionally (a KeyError — `none` — when the
stored record has no date field, even if the body supplies one), merge the
body's date over it and store the re-encoded record. -/
def update_payment (payment_id : Nat) (body : JsonObj) (st : Store) :
    Option (Nat × Json × Store) :=
  match kvGet st.payments (natFieldStr payment_id) with
  | none => some (404, errPaymentNotFound, st)
  | some s =>
    if s = "" then some (404, errPaymentNotFound, st)
    else
      match loads s with
      | none => none
      | some (.obj fs) =>
        match fs.find? "date" with
        | none => none
        | some d0 =>
          let record := fs.set "date" ((body.find? "date").getD d0)
          some (200, .obj record,
            st.withPayments (kvSet st.payments (natFieldStr payment_id)
              (dumpStr (.obj record))))
      | some _ => none

/-- DELETE `/api/payments/{id}` (app.py lines 187-195). -/
def delete_payment (payment_id : Nat) (st : Store) : Option (Nat × Json × Store) :=
  some (200, successTrue, st.withPayments (kvDel st.payments (natFieldStr payment_id)))

/-- POST `/api/photos` (app.py lines 197-210): falsy `expenseId` yields
400; otherwise the whole body is stored under `photos[expenseId]`. -/
def add_or_update_photo (body : JsonObj) (st : Store) : Option (Nat × Json × Store) :=
  let eid := (body.find? "expenseId").getD .null
  if truthy eid = false then some (400, errExpenseIdRequired, st)
  else
    match redisArg eid with
    | none => none
    | some f =>
      some (201, .obj body, st.withPhotos (kvSet st.photos f (dumpStr (.obj body))))

/-- DELETE `/api/photos/{expenseId}` (app.py lines 212-232): when a truthy
stored expense exists, flip its `billPhoto` to `False` and delete the
photo field in one batch; otherwise delete the photo field alone. -/
def delete_photo (expense_id : Nat) (st : Store) : Option (Nat × Json × Store) :=
  match kvGet st.expenses (natFieldStr expense_id) with
  | some s =>
    if s = "" then
      some (200, successTrue, st.withPhotos (kvDel st.photos (natFieldStr expense_id)))
    else
      match loads s with
      | none => none
      | some (.obj fs) =>
        some (200, successTrue,
          Store.mk st.kv
            (kvSet st.expenses (natFieldStr expense_id)
              (dumpStr (.obj (fs.set "billPhoto" (.bool false)))))
            st.payments (kvDel st.photos (natFieldStr expense_id)))
      | some _ => none
  | none =>
    some (200, successTrue, st.withPhotos (kvDel st.photos (natFieldStr expense_id)))

/-! ### Request traces (for the identifier claims) -/

/-- One mutating API request. -/
inductive Op where
  | addExpense (body : JsonObj)
  | updateExpense (id : Nat) (body : JsonObj)
  | deleteExpense (id : Nat)
  | addPayment (body : JsonObj)
  | updatePayment (id : Nat) (body : JsonObj)
  | deletePayment (id : Nat)
  | addPhoto (body : JsonObj)
  | deletePhoto (id : Nat)
  | saveSetting (body : JsonObj)
deriving DecidableEq

def applyOp (st : Store) : Op → Option (Nat × Json × Store)
  | .addExpense b => add_expense b st
  | .updateExpense i b => update_expense i b st
  | .deleteExpense i => delete_expense i st
  | .addPayment b => add_payment b st
  | .updatePayment i b => update_payment i b st
  | .deletePayment i => delete_payment i st
  | .addPhoto b => add_or_update_photo b st
  | .deletePhoto i => delete_photo i st
  | .saveSetting b => save_setting b st

/-- Store after one request.  An unhandled exception (`none`) leaves the
store unchanged: in app.py every write happens after the last possible
exception point of its handler. -/
def stepOp (st : Store) (op : Op) : Store :=
  match applyOp st op with
  | some (_, _, st2) => st2
  | none => st

/-- Identifiers assigned by POST `/api/expenses` along a trace: the value
`db.incr('next_expense_id')` returns for each expense creation that
reaches the increment successfully. -/
def expIdsOf (st : Store) : List Op → List Int
  | [] => []
  | op :: ops =>
    (match op with
     | .addExpense _ =>
       match incr st.kv "next_expense_id" with
       | some (n, _) => [n]
       | none => []
     | _ => []) ++ expIdsOf (stepOp st op) ops

/-- Number of expense creations in a trace. -/
def countAddExpense : List Op → Nat
  | [] => 0
  | .addExpense _ :: ops => countAddExpense ops + 1
  | _ :: ops => countAddExpense ops

/-- Integer value of a counter key (0 when absent, as Redis `INCR` treats
a missing key). -/
def counterAt (l : List (String × String)) (k : String) : Option Int :=
  match kvGet l k with
  | none => some 0
  | some s => parseIntString s

/-- Integer value of the expense-id counter. -/
def expCounterVal (st : Store) : Option Int :=
  counterAt st.kv "next_expense_id"

/-- A settings write whose Redis key is the expense-id counter key. -/
def touchesExpenseCounter : Op → Bool
  | .saveSetting b =>
    match redisArg ((b.find? "key").getD .null) with
    | some ks => decide (ks = "next_expense_id")
    | none => false
  | _ => false

theorem update_payment_kv (i : Nat) (b : JsonObj) (st : Store)
    (x : Nat × Json × Store) (h : update_payment i b st = some x) :
    x.2.2.kv = st.kv := by
  unfold update_payment at h
  rcases hg : kvGet st.payments (natFieldStr i) with _ | s
  · simp only [hg] at h
    cases h
    rfl
  · simp only [hg] at h
    by_cases hs : s = ""
    · simp only [if_pos hs] at h
      cases h
      rfl
    · simp only [if_neg hs] at h
      rcases hl : loads s with _ | v
      · simp only [hl] at h
        exact Option.noConfusion h
      · simp only [hl] at h
        cases v with
        | obj fs =>
          rcases hd : fs.find? "date" with _ | d0
          · simp only [hd] at h
            exact Option.noConfusion h
          · simp only [hd] at h
            cases h
            rfl
        | null => exact Option.noConfusion h
        | bool b2 => exact Option.noConfusion h
        | num n => exact Option.noConfusion h
        | str s2 => exact Option.noConfusion h
        | arr xs => exact Option.noConfusion h

theorem delete_photo_kv (i : Nat) (st : Store)
    (x : Nat × Json × Store) (h : delete_photo i st = some x) :
    x.2.2.kv = st.kv := by
  unfold delete_photo at h
  rcases hg : kvGet st.expenses (natFieldStr i) with _ | s
  · simp only [hg] at h
    cases h
    rfl
  · simp only [hg] at h
    by_cases hs : s = ""
    · simp only [if_pos hs] at h
      cases h
      rfl
    · simp only [if_neg hs] at h
      rcases hl : loads s with _ | v
      · simp only [hl] at h
        exact Option.noConfusion h
      · simp only [hl] at h
        cases v with
        | obj fs =>
          cases h
          rfl
        | null => exact Option.noConfusion h
        | bool b2 => exact Option.noConfusion h
        | num n => exact Option.noConfusion h
        | str s2 => exact Option.noConfusion h
        | arr xs => exact Option.noConfusion h

theorem add_or_update_photo_kv (b : JsonObj) (st : Store)
    (x : Nat × Json × Store) (h : add_or_update_photo b st = some x) :
    x.2.2.kv = st.kv := by
  unfold add_or_update_photo at h
  by_cases ht : truthy ((b.find? "expenseId").getD Json.null) = false
  · simp only [if_pos ht] at h
    cases h
    rfl
  · simp only [if_neg ht] at h
    rcases hr : redisArg ((b.find? "expenseId").getD Json.null) with _ | f
    · simp only [hr] at h
      exact Option.noConfusion h
    · simp only [hr] at h
      cases h
      rfl

theorem incr_of_counter (l : List (String × String)) (k : String) (c : Int)
    (hc : counterAt l k = some c) :
    incr l k = some (c + 1, kvSet l k (intReprStr (c + 1))) := by
  unfold counterAt at hc
  unfold incr
  rcases hg : kvGet l k with _ | s
  · simp only [hg, Option.some.injEq] at hc
    subst hc
    simp [hg]
  · simp only [hg] at hc
    simp [hg, hc]

theorem counterAt_after_incr (l : List (String × String)) (k : String) (c : Int) :
    counterAt (kvSet l k (intReprStr (c + 1))) k = some (c + 1) := by
  unfold counterAt
  rw [kvGet_kvSet_self]
  simp [parseIntString_intReprStr]

theorem stepOp_counter (st : Store) (op : Op)
    (hop : touchesExpenseCounter op = false) (hnadd : ∀ b, op ≠ Op.addExpense b) :
    kvGet (stepOp st op).kv "next_expense_id" = kvGet st.kv "next_expense_id" := by
  cases op with
  | addExpense b => exact absurd rfl (hnadd b)
  | updateExpense i b => rfl
  | deleteExpense i => rfl
  | addPayment b =>
    unfold stepOp applyOp add_payment
    rcases hi : incr st.kv "next_payment_id" with _ | p
    · simp [hi]
    · rcases p with ⟨n, kv2⟩
      simp only [hi]
      unfold incr at hi
      rcases hg : kvGet st.kv "next_payment_id" with _ | s
      · simp only [hg, Option.some.injEq, Prod.mk.injEq] at hi
        rw [← hi.2, kvGet_kvSet_other]
        decide
      · simp only [hg] at hi
        rcases hp : parseIntString s with _ | n2
        · simp only [hp] at hi
          exact Option.noConfusion hi
        · simp only [hp, Option.some.injEq, Prod.mk.injEq] at hi
          rw [← hi.2, kvGet_kvSet_other]
          decide
  | updatePayment i b =>
    rcases h : update_payment i b st with _ | x
    · simp [stepOp, applyOp, h]
    · have hkv := update_payment_kv i b st x h
      rcases x with ⟨stat, body2, st2⟩
      simp only at hkv
      simp [stepOp, applyOp, h, hkv]
  | deletePayment i => rfl
  | addPhoto b =>
    rcases h : add_or_update_photo b st with _ | x
    · simp [stepOp, applyOp, h]
    · have hkv := add_or_update_photo_kv b st x h
      rcases x with ⟨stat, body2, st2⟩
      simp only at hkv
      simp [stepOp, applyOp, h, hkv]
  | deletePhoto i =>
    rcases h : delete_photo i st with _ | x
    · simp [stepOp, applyOp, h]
    · have hkv := delete_photo_kv i st x h
      rcases x with ⟨stat, body2, st2⟩
      simp only at hkv
      simp [stepOp, applyOp, h, hkv]
  | saveSetting b =>
    simp only [touchesExpenseCounter] at hop
    unfold stepOp applyOp save_setting
    by_cases hcond : truthy ((b.find? "key").getD Json.null) = false ∨
        ((b.find? "value").getD Json.null) = Json.null
    · simp only [if_pos hcond]
    · simp only [if_neg hcond]
      rcases hk : redisArg ((b.find? "key").getD Json.null) with _ | ks
      · simp [hk]
      · simp only [hk] at hop ⊢
        simp only [decide_eq_false_iff_not] at hop
        rcases hv : redisArg (settingEnc ((b.find? "value").getD Json.null)) with _ | vs
        · simp [hv]
        · simp only [hv]
          simp [Store.withKv,
            kvGet_kvSet_other st.kv ks "next_expense_id" vs (Ne.symm hop)]

theorem expIdsOf_nonadd (st : Store) (op : Op) (ops : List Op)
    (hnadd : ∀ b, op ≠ Op.addExpense b) :
    expIdsOf st (op :: ops) = expIdsOf (stepOp st op) ops := by
  cases op with
  | addExpense b => exact absurd rfl (hnadd b)
  | updateExpense i b => rfl
  | deleteExpense i => rfl
  | addPayment b => rfl
  | updatePayment i b => rfl
  | deletePayment i => rfl
  | addPhoto b => rfl
  | deletePhoto i => rfl
  | saveSetting b => rfl

theorem countAddExpense_nonadd (op : Op) (ops : List Op)
    (hnadd : ∀ b, op ≠ Op.addExpense b) :
    countAddExpense (op :: ops) = countAddExpense ops := by
  cases op with
  | addExpense b => exact absurd rfl (hnadd b)
  | updateExpense i b => rfl
  | deleteExpense i => rfl
  | addPayment b => rfl
  | updatePayment i b => rfl
  | deletePayment i => rfl
  | addPhoto b => rfl
  | deletePhoto i => rfl
  | saveSetting b => rfl

/-- Along any trace of API requests in which no settings write targets the
`next_expense_id` counter key, the expense identifiers handed out by
POST `/api/expenses` are exactly the consecutive integers following the
initial counter value — in particular distinct, strictly increasing, one
per creation, and unaffected by any interleaved payment (or other)
operations. -/
theorem expIdsOf_eq : ∀ (ops : List Op) (st : Store) (c : Int),
    expCounterVal st = some c →
    (∀ op ∈ ops, touchesExpenseCounter op = false) →
    expIdsOf st ops =
      (List.range (countAddExpense ops)).map (fun i : Nat => c + 1 + (i : Int))
  | [], st, c, hc, hops => by simp [expIdsOf, countAddExpense]
  | op :: ops, st, c, hc, hops => by
    by_cases hadd : ∃ b, op = Op.addExpense b
    · obtain ⟨b, rfl⟩ := hadd
      have hi := incr_of_counter st.kv "next_expense_id" c hc
      have hkv2 : (stepOp st (Op.addExpense b)).kv =
          kvSet st.kv "next_expense_id" (intReprStr (c + 1)) := by
        simp [stepOp, applyOp, add_expense, hi]
      have hc2 : expCounterVal (stepOp st (Op.addExpense b)) = some (c + 1) := by
        unfold expCounterVal
        rw [hkv2]
        exact counterAt_after_incr st.kv _ c
      have ih := expIdsOf_eq ops (stepOp st (Op.addExpense b)) (c + 1) hc2
        (fun o ho => hops o (List.mem_cons_of_mem _ ho))
      rw [expIdsOf]
      simp only [hi]
      rw [ih, countAddExpense, List.range_succ_eq_map, List.map_cons, List.map_map]
      simp only [List.singleton_append]
      congr 1
      · simp
      · apply List.map_congr_left
        intro i hi2
        simp only [Function.comp]
        push_cast
        ring
    · have hnadd : ∀ b, op ≠ Op.addExpense b := fun b h => hadd ⟨b, h⟩
      have hpres := stepOp_counter st op (hops op (List.mem_cons_self op ops)) hnadd
      have hc2 : expCounterVal (stepOp st op) = some c := by
        unfold expCounterVal counterAt at hc ⊢
        rw [hpres]
        exact hc
      have ih := expIdsOf_eq ops (stepOp st op) c hc2
        (fun o ho => hops o (List.mem_cons_of_mem _ ho))
      rw [expIdsOf_nonadd st op ops hnadd, countAddExpense_nonadd op ops hnadd, ih]

/-! ### Sortedness of the consolidated view -/

/-- Sort key of a record as the spec describes it: the field's value with
missing or falsy values counting as 0 (total on all JSON values; records
that are not objects never survive to a sorted output). -/
def fieldKey (k : String) : Json → Json
  | .obj fs => orZero ((fs.find? k).getD (.num 0))
  | _ => .num 0

/-- No adjacent pair strictly decreases in the given field under the
Python comparison: ascending order. -/
def SortedAscBy (k : String) (l : List Json) : Prop :=
  List.Chain' (fun a b => pyLt (fieldKey k b) (fieldKey k a) ≠ some true) l

/-- No adjacent pair strictly increases in the given field under the
Python comparison: descending order. -/
def SortedDescBy (k : String) (l : List Json) : Prop :=
  List.Chain' (fun a b => pyLt (fieldKey k a) (fieldKey k b) ≠ some true) l

theorem parse_redis_hash_chain (hs : List (String × String)) (k : String) (reverse : Bool) :
    List.Chain' (fun a b => cmpFor reverse (fieldKey k b) (fieldKey k a) ≠ some true)
      (parse_redis_hash hs (some k) reverse) := by
  unfold parse_redis_hash
  rcases hd : decodeAll (hs.map Prod.snd) with _ | items
  · simp
  · rcases hk : keysAll k items with _ | keys
    · simp [hk]
    · rcases hsort : sortPairs (cmpFor reverse) (keys.zip items) with _ | sorted
      · simp [hk, hsort]
      · simp only [hk, hsort]
        have hchain := sortPairs_chain (cmpFor reverse) (cmpFor_asymm reverse) _ _ hsort
        have hperm := sortPairs_perm (cmpFor reverse) _ _ hsort
        have hkeys : ∀ p ∈ sorted, p.1 = fieldKey k p.2 := by
          intro p hp
          have hzip : p ∈ keys.zip items := hperm.mem_iff.mp hp
          have hsk := keysAll_zip_mem k items keys hk p hzip
          cases hobj : p.2 with
          | obj fs =>
            rw [hobj] at hsk
            simp only [sortKeyVal, Option.some.injEq] at hsk
            simp only [fieldKey]
            exact hsk.symm
          | null => rw [hobj] at hsk; exact Option.noConfusion hsk
          | bool b => rw [hobj] at hsk; exact Option.noConfusion hsk
          | num n => rw [hobj] at hsk; exact Option.noConfusion hsk
          | str s => rw [hobj] at hsk; exact Option.noConfusion hsk
          | arr xs => rw [hobj] at hsk; exact Option.noConfusion hsk
        rw [List.chain'_map]
        apply chain_imp_of_mem sorted hchain
        intro a ha b hb hr
        rw [← hkeys a ha, ← hkeys b hb]
        exact hr

theorem parse_redis_hash_sorted_asc (hs : List (String × String)) (k : String) :
    SortedAscBy k (parse_redis_hash hs (some k) false) := by
  have h := parse_redis_hash_chain hs k false
  unfold SortedAscBy
  simpa only [cmpFor] using h

theorem parse_redis_hash_sorted_desc (hs : List (String × String)) (k : String) :
    SortedDescBy k (parse_redis_hash hs (some k) true) := by
  have h := parse_redis_hash_chain hs k true
  unfold SortedDescBy
  simpa only [cmpFor] using h

/-! ### Helper lemmas about the handlers -/

theorem dumpVal_ne_nil (v : Json) : dumpVal v ≠ [] := by
  obtain ⟨c, t, hct, _⟩ := dumpVal_head v
  rw [hct]
  simp

theorem dumpStr_ne_empty (v : Json) : dumpStr v ≠ "" := by
  unfold dumpStr
  intro h
  have hd := congrArg String.data h
  simp only at hd
  exact dumpVal_ne_nil v hd

theorem get_all_data_fields (st : Store) (view : DataView)
    (h : get_all_data st = some view) :
    view.userName = settingOr st "userName" "User" ∧
    loads (settingOr st "budgets" "{}") = some view.budgets ∧
    loads (settingOr st "incomes" "{}") = some view.incomes ∧
    view.allExpenses = parse_redis_hash st.expenses (some "id") true ∧
    view.upcomingPayments = parse_redis_hash st.payments (some "date") false ∧
    view.allBillPhotos = parse_redis_hash st.photos (some "expenseId") true := by
  unfold get_all_data at h
  rcases hb : loads (settingOr st "budgets" "{}") with _ | bj
  · rw [hb] at h; exact Option.noConfusion h
  · rcases hi : loads (settingOr st "incomes" "{}") with _ | ij
    · rw [hb, hi] at h; exact Option.noConfusion h
    · rw [hb, hi] at h
      simp only [Option.some.injEq] at h
      subst h
      exact ⟨rfl, rfl, rfl, rfl, rfl, rfl⟩

theorem save_setting_success (st : Store) (body : JsonObj) (ks vs : String)
    (ht : truthy ((body.find? "key").getD .null) = true)
    (hv : (body.find? "value").getD .null ≠ .null)
    (hks : redisArg ((body.find? "key").getD .null) = some ks)
    (hvs : redisArg (settingEnc ((body.find? "value").getD .null)) = some vs) :
    save_setting body st = some (200,
      .obj (.cons "success" (.bool true) (.cons "key" ((body.find? "key").getD .null)
        (.cons "value" ((body.find? "value").getD .null) .nil))),
      st.withKv (kvSet st.kv ks vs)) := by
  unfold save_setting
  rw [if_neg (by simp [ht, hv])]
  simp [hks, hvs]

/-! ### The claims -/

/-- C3: for every store state, the object returned by GET `/api/data` has
`allExpenses` sorted by id descending, `upcomingPayments` sorted by date
ascending, and `allBillPhotos` sorted by expenseId descending, where a
record's missing or falsy sort-field value is treated as 0 for the
comparison. -/
theorem C3_data_view_sorted (st : Store) (view : DataView)
    (h : get_all_data st = some view) :
    SortedDescBy "id" view.allExpenses ∧
    SortedAscBy "date" view.upcomingPayments ∧
    SortedDescBy "expenseId" view.allBillPhotos := by
  obtain ⟨-, -, -, he, hp, hph⟩ := get_all_data_fields st view h
  rw [he, hp, hph]
  exact ⟨parse_redis_hash_sorted_desc _ _, parse_redis_hash_sorted_asc _ _,
    parse_redis_hash_sorted_desc _ _⟩

theorem C3_witness :
    SortedDescBy "id" [Json.obj (JsonObj.cons "id" (Json.num 2) JsonObj.nil),
      Json.obj (JsonObj.cons "id" (Json.num 1) JsonObj.nil)] ∧
    SortedAscBy "date" ([] : List Json) ∧
    SortedDescBy "expenseId" ([] : List Json) :=
  C3_data_view_sorted
    (Store.mk [] [("1", dumpStr (Json.obj (JsonObj.cons "id" (Json.num 1) JsonObj.nil))),
      ("2", dumpStr (Json.obj (JsonObj.cons "id" (Json.num 2) JsonObj.nil)))] [] [])
    (DataView.mk "User" (Json.obj .nil) (Json.obj .nil)
      [Json.obj (JsonObj.cons "id" (Json.num 2) JsonObj.nil),
        Json.obj (JsonObj.cons "id" (Json.num 1) JsonObj.nil)] [] [])
    (by decide)

/-- C4: the collection parser is fail-soft: if decoding any stored value
fails, or key extraction or the sort comparison raises, it returns the
empty list (never an error, never a subset); if every value decodes and
sorting succeeds, it returns the full (sorted) list of decoded records. -/
theorem C4_parse_fail_soft (hs : List (String × String)) (k : String) (reverse : Bool) :
    ((∃ s ∈ hs.map Prod.snd, loads s = none) →
      parse_redis_hash hs (some k) reverse = []) ∧
    (∀ items, decodeAll (hs.map Prod.snd) = some items →
      ((keysAll k items = none ∨
          (∃ keys, keysAll k items = some keys ∧
            sortPairs (cmpFor reverse) (keys.zip items) = none)) →
        parse_redis_hash hs (some k) reverse = []) ∧
      (∀ keys sorted, keysAll k items = some keys →
        sortPairs (cmpFor reverse) (keys.zip items) = some sorted →
        parse_redis_hash hs (some k) reverse = sorted.map Prod.snd ∧
        (sorted.map Prod.snd).Perm items)) := by
  constructor
  · intro hex
    have hd : decodeAll (hs.map Prod.snd) = none := (decodeAll_none _).mpr hex
    unfold parse_redis_hash
    simp [hd]
  · intro items hd
    constructor
    · intro hfail
      unfold parse_redis_hash
      rcases hfail with hk | ⟨keys, hk, hsort⟩
      · simp [hd, hk]
      · simp [hd, hk, hsort]
    · intro keys sorted hk hsort
      constructor
      · unfold parse_redis_hash
        simp [hd, hk, hsort]
      · have hperm := sortPairs_perm (cmpFor reverse) _ _ hsort
        have hlen := keysAll_length k items keys hk
        have hmap := hperm.map Prod.snd
        rwa [List.map_snd_zip keys items (le_of_eq hlen.symm)] at hmap

theorem C4_witness :
    parse_redis_hash [("1", "bogus")] (some "id") true = [] ∧
    parse_redis_hash [("1", dumpStr (Json.obj (JsonObj.cons "id" (Json.num 1) JsonObj.nil)))] (some "id") true =
      [Json.obj (JsonObj.cons "id" (Json.num 1) JsonObj.nil)] :=
  ⟨(C4_parse_fail_soft [("1", "bogus")] "id" true).1 ⟨"bogus", by decide, by decide⟩,
    (((C4_parse_fail_soft [("1", dumpStr (Json.obj (JsonObj.cons "id" (Json.num 1) JsonObj.nil)))] "id" true).2
        [Json.obj (JsonObj.cons "id" (Json.num 1) JsonObj.nil)] (by decide)).2
      [Json.num 1] [(Json.num 1, Json.obj (JsonObj.cons "id" (Json.num 1) JsonObj.nil))]
      (by decide) (by decide)).1⟩

/-- C6: for every path id, DELETE `/api/expenses/{id}` removes both the
`expenses[id]` hash field and the `photos[id]` hash field in one batch and
returns 200 `{success: true}`; afterwards both fields are absent, and all
other fields of both hashes (and the rest of the store) are unchanged. -/
theorem C6_delete_expense_cascade (st : Store) (i : Nat) :
    delete_expense i st = some (200, successTrue,
      Store.mk st.kv (kvDel st.expenses (natFieldStr i)) st.payments
        (kvDel st.photos (natFieldStr i))) ∧
    kvGet (kvDel st.expenses (natFieldStr i)) (natFieldStr i) = none ∧
    kvGet (kvDel st.photos (natFieldStr i)) (natFieldStr i) = none ∧
    (∀ f, f ≠ natFieldStr i →
      kvGet (kvDel st.expenses (natFieldStr i)) f = kvGet st.expenses f ∧
      kvGet (kvDel st.photos (natFieldStr i)) f = kvGet st.photos f) :=
  ⟨rfl, kvGet_kvDel_self _ _, kvGet_kvDel_self _ _,
    fun f hf => ⟨kvGet_kvDel_other _ _ _ hf, kvGet_kvDel_other _ _ _ hf⟩⟩

theorem C6_witness :
    kvGet (kvDel [("1", "y"), ("2", "z")] (natFieldStr 1)) "2" =
      kvGet [("1", "y"), ("2", "z")] "2" :=
  ((C6_delete_expense_cascade
    (Store.mk [] [("1", "x")] [] [("1", "y"), ("2", "z")]) 1).2.2.2 "2" (by decide)).2

/-- C5 (amended): PUT `/api/payments/{id}` returns 404 and leaves the
store unchanged when no stored payment exists under the id; when the
payment exists (a valid encoded record) **and its stored record contains a
`date` field**, it merges only the body's date field into the stored
record, leaves every other stored field identical, leaves every other
payment field and the rest of the store untouched, and returns 200 with
the updated record.  (The unamended claim fails when the stored record
lacks a date field: the handler then raises, see the counterexample.) -/
theorem C5_update_payment (st : Store) (i : Nat) (body : JsonObj) :
    (kvGet st.payments (natFieldStr i) = none →
      update_payment i body st = some (404, errPaymentNotFound, st)) ∧
    (∀ o d0, kvGet st.payments (natFieldStr i) = some (dumpStr (.obj o)) →
      o.find? "date" = some d0 →
      update_payment i body st = some (200,
        .obj (o.set "date" ((body.find? "date").getD d0)),
        st.withPayments (kvSet st.payments (natFieldStr i)
          (dumpStr (.obj (o.set "date" ((body.find? "date").getD d0)))))) ∧
      (∀ k2, k2 ≠ "date" →
        (o.set "date" ((body.find? "date").getD d0)).find? k2 = o.find? k2) ∧
      (∀ f, f ≠ natFieldStr i →
        kvGet (kvSet st.payments (natFieldStr i)
          (dumpStr (.obj (o.set "date" ((body.find? "date").getD d0))))) f =
        kvGet st.payments f)) := by
  constructor
  · intro h404
    unfold update_payment
    simp [h404]
  · intro o d0 ho hd
    refine ⟨?_, fun k2 hk2 => JsonObj.find?_set_other o "date" k2 _ hk2,
      fun f hf => kvGet_kvSet_other _ _ _ _ hf⟩
    unfold update_payment
    simp only [ho]
    rw [if_neg (dumpStr_ne_empty _)]
    simp [loads_dumpStr, hd]

theorem C5_counterexample :
    kvGet (Store.mk [] [] [("1", dumpStr (Json.obj (JsonObj.cons "amount" (Json.num 5)
        JsonObj.nil)))] []).payments (natFieldStr 1) ≠ none ∧
    update_payment 1 (JsonObj.cons "date" (Json.str "2024-01-01") JsonObj.nil)
      (Store.mk [] [] [("1", dumpStr (Json.obj (JsonObj.cons "amount" (Json.num 5)
        JsonObj.nil)))] []) = none := by
  constructor
  · decide
  · decide

theorem C5_witness :
    update_payment 2
      (JsonObj.cons "date" (Json.str "2024-02-02") JsonObj.nil)
      (Store.mk [] [] [("1", dumpStr (Json.obj (JsonObj.cons "date" (Json.str "2024-01-01")
        (JsonObj.cons "amount" (Json.num 7) JsonObj.nil))))] []) =
      some (404, errPaymentNotFound,
        Store.mk [] [] [("1", dumpStr (Json.obj (JsonObj.cons "date" (Json.str "2024-01-01")
          (JsonObj.cons "amount" (Json.num 7) JsonObj.nil))))] []) ∧
    update_payment 1
      (JsonObj.cons "date" (Json.str "2024-02-02") JsonObj.nil)
      (Store.mk [] [] [("1", dumpStr (Json.obj (JsonObj.cons "date" (Json.str "2024-01-01")
        (JsonObj.cons "amount" (Json.num 7) JsonObj.nil))))] []) =
      some (200,
        Json.obj (JsonObj.cons "date" (Json.str "2024-02-02")
          (JsonObj.cons "amount" (Json.num 7) JsonObj.nil)),
        (Store.mk [] [] [("1", dumpStr (Json.obj (JsonObj.cons "date" (Json.str "2024-01-01")
          (JsonObj.cons "amount" (Json.num 7) JsonObj.nil))))] []).withPayments
          (kvSet [("1", dumpStr (Json.obj (JsonObj.cons "date" (Json.str "2024-01-01")
            (JsonObj.cons "amount" (Json.num 7) JsonObj.nil))))] (natFieldStr 1)
            (dumpStr (Json.obj (JsonObj.cons "date" (Json.str "2024-02-02")
              (JsonObj.cons "amount" (Json.num 7) JsonObj.nil)))))) := by
  constructor
  · exact (C5_update_payment
      (Store.mk [] [] [("1", dumpStr (Json.obj (JsonObj.cons "date" (Json.str "2024-01-01")
        (JsonObj.cons "amount" (Json.num 7) JsonObj.nil))))] []) 2
      (JsonObj.cons "date" (Json.str "2024-02-02") JsonObj.nil)).1 (by decide)
  · exact ((C5_update_payment
      (Store.mk [] [] [("1", dumpStr (Json.obj (JsonObj.cons "date" (Json.str "2024-01-01")
        (JsonObj.cons "amount" (Json.num 7) JsonObj.nil))))] []) 1
      (JsonObj.cons "date" (Json.str "2024-02-02") JsonObj.nil)).2
      (JsonObj.cons "date" (Json.str "2024-01-01")
        (JsonObj.cons "amount" (Json.num 7) JsonObj.nil))
      (Json.str "2024-01-01") (by decide) (by decide)).1

/-- C7: DELETE `/api/photos/{expenseId}`: when a matching (validly
encoded) expense record exists, it sets that expense's billPhoto field to
false and deletes `photos[expenseId]` in one batch, leaving every other
field of the expense record unchanged; when no matching expense exists,
it deletes `photos[expenseId]` alone; both paths return 200
`{success: true}`. -/
theorem C7_delete_photo_frame (st : Store) (i : Nat) :
    (∀ o, kvGet st.expenses (natFieldStr i) = some (dumpStr (.obj o)) →
      delete_photo i st = some (200, successTrue,
        Store.mk st.kv
          (kvSet st.expenses (natFieldStr i)
            (dumpStr (.obj (o.set "billPhoto" (.bool false)))))
          st.payments (kvDel st.photos (natFieldStr i))) ∧
      (o.set "billPhoto" (.bool false)).find? "billPhoto" = some (.bool false) ∧
      (∀ k2, k2 ≠ "billPhoto" →
        (o.set "billPhoto" (.bool false)).find? k2 = o.find? k2) ∧
      kvGet (kvDel st.photos (natFieldStr i)) (natFieldStr i) = none) ∧
    (kvGet st.expenses (natFieldStr i) = none →
      delete_photo i st = some (200, successTrue,
        st.withPhotos (kvDel st.photos (natFieldStr i)))) := by
  constructor
  · intro o ho
    refine ⟨?_, JsonObj.find?_set_self o "billPhoto" _,
      fun k2 hk2 => JsonObj.find?_set_other o "billPhoto" k2 _ hk2,
      kvGet_kvDel_self _ _⟩
    unfold delete_photo
    simp only [ho]
    rw [if_neg (dumpStr_ne_empty _)]
    simp [loads_dumpStr]
  · intro ho
    unfold delete_photo
    simp [ho]

theorem C7_witness :
    delete_photo 1
      (Store.mk [] [("1", dumpStr (Json.obj (JsonObj.cons "id" (Json.num 1)
        (JsonObj.cons "billPhoto" (Json.bool true) JsonObj.nil))))] []
        [("1", dumpStr (Json.obj (JsonObj.cons "expenseId" (Json.num 1) JsonObj.nil)))]) =
      some (200, successTrue,
        Store.mk []
          (kvSet [("1", dumpStr (Json.obj (JsonObj.cons "id" (Json.num 1)
            (JsonObj.cons "billPhoto" (Json.bool true) JsonObj.nil))))] (natFieldStr 1)
            (dumpStr (Json.obj ((JsonObj.cons "id" (Json.num 1)
              (JsonObj.cons "billPhoto" (Json.bool true) JsonObj.nil)).set "billPhoto"
                (Json.bool false)))))
          [] (kvDel [("1", dumpStr (Json.obj (JsonObj.cons "expenseId" (Json.num 1) JsonObj.nil)))] (natFieldStr 1))) :=
  ((C7_delete_photo_frame
    (Store.mk [] [("1", dumpStr (Json.obj (JsonObj.cons "id" (Json.num 1)
      (JsonObj.cons "billPhoto" (Json.bool true) JsonObj.nil))))] []
      [("1", dumpStr (Json.obj (JsonObj.cons "expenseId" (Json.num 1) JsonObj.nil)))]) 1).1
    (JsonObj.cons "id" (Json.num 1) (JsonObj.cons "billPhoto" (Json.bool true) JsonObj.nil))
    (by decide)).1

/-- C10: if the stored payment record under the given id exists (as a
valid encoded object) but contains no `date` field, PUT
`/api/payments/{id}` raises an unhandled KeyError — even when the request
body supplies a date, because `existing_payment['date']` is evaluated
unconditionally as the eager default of `data.get` — instead of returning
any JSON response; with a `date` field present in the stored record the
update returns 200 normally. -/
theorem C10_update_payment_keyerror (st : Store) (i : Nat) (body : JsonObj) (o : JsonObj)
    (hstored : kvGet st.payments (natFieldStr i) = some (dumpStr (.obj o))) :
    (o.find? "date" = none → update_payment i body st = none) ∧
    (∀ d0, o.find? "date" = some d0 →
      ∃ r st2, update_payment i body st = some (200, r, st2)) := by
  constructor
  · intro hd
    unfold update_payment
    simp only [hstored]
    rw [if_neg (dumpStr_ne_empty _)]
    simp [loads_dumpStr, hd]
  · intro d0 hd
    refine ⟨.obj (o.set "date" ((body.find? "date").getD d0)),
      st.withPayments (kvSet st.payments (natFieldStr i)
        (dumpStr (.obj (o.set "date" ((body.find? "date").getD d0))))), ?_⟩
    unfold update_payment
    simp only [hstored]
    rw [if_neg (dumpStr_ne_empty _)]
    simp [loads_dumpStr, hd]

theorem C10_witness :
    update_payment 1 (JsonObj.cons "date" (Json.str "2030-03-03") JsonObj.nil)
      (Store.mk [] [] [("1", dumpStr (Json.obj (JsonObj.cons "note" (Json.str "rent")
        JsonObj.nil)))] []) = none :=
  (C10_update_payment_keyerror
    (Store.mk [] [] [("1", dumpStr (Json.obj (JsonObj.cons "note" (Json.str "rent")
      JsonObj.nil)))] []) 1
    (JsonObj.cons "date" (Json.str "2030-03-03") JsonObj.nil)
    (JsonObj.cons "note" (Json.str "rent") JsonObj.nil) (by decide)).1 (by decide)

/-- Object or array values (the ones `save_setting` encodes with
`json.dumps` before storing). -/
def isObjOrArr : Json → Bool
  | .obj _ => true
  | .arr _ => true
  | _ => false

/-- C1 (amended): settings round-trip for the three keys GET `/api/data`
exposes: after a valid POST `/api/settings` write of an object/array value
to `budgets` or `incomes`, a subsequent GET `/api/data` returns that value
exactly (the encode-then-decode cycle is the identity on it); a written
**non-empty** userName string is returned as written.  (The unamended
claim fails for the empty userName string, which GET replaces by "User":
see the counterexample.) -/
theorem C1_settings_roundtrip (st : Store) (body : JsonObj) :
    (∀ s : String, (body.find? "key").getD .null = .str "userName" →
      (body.find? "value").getD .null = .str s → s ≠ "" →
      ∀ st2 r, save_setting body st = some (200, r, st2) →
      ∀ view, get_all_data st2 = some view → view.userName = s) ∧
    (∀ v : Json, (body.find? "key").getD .null = .str "budgets" →
      (body.find? "value").getD .null = v → isObjOrArr v = true →
      ∀ st2 r, save_setting body st = some (200, r, st2) →
      ∀ view, get_all_data st2 = some view → view.budgets = v) ∧
    (∀ v : Json, (body.find? "key").getD .null = .str "incomes" →
      (body.find? "value").getD .null = v → isObjOrArr v = true →
      ∀ st2 r, save_setting body st = some (200, r, st2) →
      ∀ view, get_all_data st2 = some view → view.incomes = v) := by
  refine ⟨?_, ?_, ?_⟩
  · intro s hk hv hs st2 r hsave view hview
    have hss := save_setting_success st body "userName" s
      (by rw [hk]; decide)
      (by rw [hv]; intro hcon; exact Json.noConfusion hcon)
      (by rw [hk]; rfl)
      (by rw [hv]; rfl)
    rw [hss] at hsave
    simp only [Option.some.injEq, Prod.mk.injEq, true_and] at hsave
    obtain ⟨-, hst2⟩ := hsave
    have hfield := (get_all_data_fields _ view hview).1
    rw [hfield, ← hst2]
    unfold settingOr
    simp only [Store.withKv]
    rw [kvGet_kvSet_self]
    simp [hs]
  · intro v hk hv hva st2 r hsave view hview
    have hvnn : (body.find? "value").getD .null ≠ .null := by
      rw [hv]
      intro hcon
      rw [hcon] at hva
      exact absurd hva (by simp [isObjOrArr])
    have henc : redisArg (settingEnc v) = some (dumpStr v) := by
      cases v <;> simp_all [isObjOrArr, settingEnc, redisArg]
    have hss := save_setting_success st body "budgets" (dumpStr v)
      (by rw [hk]; decide) hvnn (by rw [hk]; rfl) (by rw [hv]; exact henc)
    rw [hss] at hsave
    simp only [Option.some.injEq, Prod.mk.injEq, true_and] at hsave
    obtain ⟨-, hst2⟩ := hsave
    have hfield := (get_all_data_fields _ view hview).2.1
    rw [← hst2] at hfield
    unfold settingOr at hfield
    simp only [Store.withKv] at hfield
    simp only [kvGet_kvSet_self] at hfield
    rw [if_neg (dumpStr_ne_empty v), loads_dumpStr] at hfield
    simp only [Option.some.injEq] at hfield
    exact hfield.symm
  · intro v hk hv hva st2 r hsave view hview
    have hvnn : (body.find? "value").getD .null ≠ .null := by
      rw [hv]
      intro hcon
      rw [hcon] at hva
      exact absurd hva (by simp [isObjOrArr])
    have henc : redisArg (settingEnc v) = some (dumpStr v) := by
      cases v <;> simp_all [isObjOrArr, settingEnc, redisArg]
    have hss := save_setting_success st body "incomes" (dumpStr v)
      (by rw [hk]; decide) hvnn (by rw [hk]; rfl) (by rw [hv]; exact henc)
    rw [hss] at hsave
    simp only [Option.some.injEq, Prod.mk.injEq, true_and] at hsave
    obtain ⟨-, hst2⟩ := hsave
    have hfield := (get_all_data_fields _ view hview).2.2.1
    rw [← hst2] at hfield
    unfold settingOr at hfield
    simp only [Store.withKv] at hfield
    simp only [kvGet_kvSet_self] at hfield
    rw [if_neg (dumpStr_ne_empty v), loads_dumpStr] at hfield
    simp only [Option.some.injEq] at hfield
    exact hfield.symm

theorem C1_counterexample :
    save_setting (JsonObj.cons "key" (Json.str "userName")
        (JsonObj.cons "value" (Json.str "") JsonObj.nil)) (Store.mk [] [] [] []) =
      some (200, Json.obj (JsonObj.cons "success" (Json.bool true)
        (JsonObj.cons "key" (Json.str "userName")
          (JsonObj.cons "value" (Json.str "") JsonObj.nil))),
        Store.mk [("userName", "")] [] [] []) ∧
    get_all_data (Store.mk [("userName", "")] [] [] []) =
      some (DataView.mk "User" (Json.obj JsonObj.nil) (Json.obj JsonObj.nil) [] [] []) ∧
    ("User" : String) ≠ "" :=
  ⟨by decide, by decide, by decide⟩

theorem C1_witness :
    (DataView.mk "User" (Json.obj (JsonObj.cons "food" (Json.num 200) JsonObj.nil))
      (Json.obj JsonObj.nil) [] [] []).budgets =
      Json.obj (JsonObj.cons "food" (Json.num 200) JsonObj.nil) :=
  (C1_settings_roundtrip (Store.mk [] [] [] [])
    (JsonObj.cons "key" (Json.str "budgets")
      (JsonObj.cons "value" (Json.obj (JsonObj.cons "food" (Json.num 200) JsonObj.nil))
        JsonObj.nil))).2.1
    (Json.obj (JsonObj.cons "food" (Json.num 200) JsonObj.nil))
    (by decide) (by decide) (by decide)
    (Store.mk [("budgets", dumpStr (Json.obj (JsonObj.cons "food" (Json.num 200)
      JsonObj.nil)))] [] [] [])
    (Json.obj (JsonObj.cons "success" (Json.bool true)
      (JsonObj.cons "key" (Json.str "budgets")
        (JsonObj.cons "value" (Json.obj (JsonObj.cons "food" (Json.num 200) JsonObj.nil))
          JsonObj.nil))))
    (by decide)
    (DataView.mk "User" (Json.obj (JsonObj.cons "food" (Json.num 200) JsonObj.nil))
      (Json.obj JsonObj.nil) [] [] [])
    (by decide)

/-- C2 (amended): POST `/api/settings` returns 400 with the store
unchanged exactly when the key is missing or falsy (Python truthiness:
absent, null, false, 0, empty string/array/object) or the value is
missing or null; otherwise, for values the redis client accepts (strings,
numbers, and objects/arrays — which are encoded to text first), it stores
the encoded value under the key and returns 200 with
`{success, key, value}` echoing the original value.  (The unamended claim
says 400 happens exactly when the key is missing/empty or the value
missing; a present, non-empty key such as the number 0 also yields 400:
see the counterexample.) -/
theorem C2_save_setting_validation (st : Store) (body : JsonObj) :
    (save_setting body st = some (400, errMissingKV, st) ↔
      (truthy ((body.find? "key").getD .null) = false ∨
        (body.find? "value").getD .null = .null)) ∧
    (∀ ks vs, truthy ((body.find? "key").getD .null) = true →
      (body.find? "value").getD .null ≠ .null →
      redisArg ((body.find? "key").getD .null) = some ks →
      redisArg (settingEnc ((body.find? "value").getD .null)) = some vs →
      save_setting body st = some (200,
        .obj (.cons "success" (.bool true) (.cons "key" ((body.find? "key").getD .null)
          (.cons "value" ((body.find? "value").getD .null) .nil))),
        st.withKv (kvSet st.kv ks vs))) := by
  constructor
  · constructor
    · intro h
      by_contra hcon
      push_neg at hcon
      have ht : truthy ((body.find? "key").getD .null) = true := by
        rcases Bool.eq_false_or_eq_true (truthy ((body.find? "key").getD .null)) with
          htt | hf
        · exact htt
        · exact absurd hf hcon.1
      unfold save_setting at h
      rw [if_neg (by simp [ht, hcon.2])] at h
      rcases hks : redisArg ((body.find? "key").getD .null) with _ | ks
      · simp [hks] at h
      · rcases hvs : redisArg (settingEnc ((body.find? "value").getD .null)) with _ | vs
        · simp [hks, hvs] at h
        · simp [hks, hvs] at h
    · intro hcond
      unfold save_setting
      rw [if_pos (by exact hcond)]
  · intro ks vs ht hv hks hvs
    exact save_setting_success st body ks vs ht hv hks hvs

theorem C2_counterexample :
    save_setting (JsonObj.cons "key" (Json.num 0)
        (JsonObj.cons "value" (Json.str "x") JsonObj.nil)) (Store.mk [] [] [] []) =
      some (400, errMissingKV, Store.mk [] [] [] []) ∧
    (JsonObj.cons "key" (Json.num 0) (JsonObj.cons "value" (Json.str "x")
      JsonObj.nil)).find? "key" = some (Json.num 0) ∧
    (JsonObj.cons "key" (Json.num 0) (JsonObj.cons "value" (Json.str "x")
      JsonObj.nil)).find? "key" ≠ some (Json.str "") ∧
    (JsonObj.cons "key" (Json.num 0) (JsonObj.cons "value" (Json.str "x")
      JsonObj.nil)).find? "value" = some (Json.str "x") :=
  ⟨by decide, by decide, by decide, by decide⟩

theorem C2_witness :
    save_setting (JsonObj.cons "key" (Json.str "budgets") JsonObj.nil)
      (Store.mk [] [] [] []) = some (400, errMissingKV, Store.mk [] [] [] []) ∧
    save_setting (JsonObj.cons "key" (Json.str "userName")
        (JsonObj.cons "value" (Json.str "Ada") JsonObj.nil)) (Store.mk [] [] [] []) =
      some (200, Json.obj (JsonObj.cons "success" (Json.bool true)
        (JsonObj.cons "key" (Json.str "userName")
          (JsonObj.cons "value" (Json.str "Ada") JsonObj.nil))),
        (Store.mk [] [] [] []).withKv (kvSet [] "userName" "Ada")) :=
  ⟨(C2_save_setting_validation (Store.mk [] [] [] [])
      (JsonObj.cons "key" (Json.str "budgets") JsonObj.nil)).1.mpr (by decide),
    (C2_save_setting_validation (Store.mk [] [] [] [])
      (JsonObj.cons "key" (Json.str "userName")
        (JsonObj.cons "value" (Json.str "Ada") JsonObj.nil))).2 "userName" "Ada"
      (by decide) (by decide) (by decide) (by decide)⟩

/-- C9 (amended): POST `/api/photos` returns 400 with the store unchanged
exactly when the body's `expenseId` is missing or falsy (absent, null, 0,
false, empty); for a truthy expenseId the redis client accepts (a number
or string), it stores the full body under `photos[expenseId]`, overwriting
any existing entry for that field and leaving other photo fields
untouched, and returns 201 with the stored record.  (The unamended claim
says 400 happens exactly when expenseId is missing; a present expenseId
of 0 also yields 400: see the counterexample.) -/
theorem C9_photo_upsert (st : Store) (body : JsonObj) :
    (add_or_update_photo body st = some (400, errExpenseIdRequired, st) ↔
      truthy ((body.find? "expenseId").getD .null) = false) ∧
    (∀ f, truthy ((body.find? "expenseId").getD .null) = true →
      redisArg ((body.find? "expenseId").getD .null) = some f →
      add_or_update_photo body st = some (201, .obj body,
        st.withPhotos (kvSet st.photos f (dumpStr (.obj body)))) ∧
      kvGet (kvSet st.photos f (dumpStr (.obj body))) f = some (dumpStr (.obj body)) ∧
      (∀ f2, f2 ≠ f →
        kvGet (kvSet st.photos f (dumpStr (.obj body))) f2 = kvGet st.photos f2)) := by
  constructor
  · constructor
    · intro h
      by_cases ht : truthy ((body.find? "expenseId").getD .null) = false
      · exact ht
      · unfold add_or_update_photo at h
        rw [if_neg ht] at h
        rcases hr : redisArg ((body.find? "expenseId").getD .null) with _ | f
        · simp [hr] at h
        · simp [hr] at h
    · intro ht
      unfold add_or_update_photo
      rw [if_pos ht]
  · intro f ht hf
    refine ⟨?_, kvGet_kvSet_self _ _ _, fun f2 hf2 => kvGet_kvSet_other _ _ _ _ hf2⟩
    unfold add_or_update_photo
    rw [if_neg (by simp [ht])]
    simp [hf]

theorem C9_counterexample :
    add_or_update_photo (JsonObj.cons "expenseId" (Json.num 0)
        (JsonObj.cons "url" (Json.str "x.jpg") JsonObj.nil)) (Store.mk [] [] [] []) =
      some (400, errExpenseIdRequired, Store.mk [] [] [] []) ∧
    (JsonObj.cons "expenseId" (Json.num 0) (JsonObj.cons "url" (Json.str "x.jpg")
      JsonObj.nil)).find? "expenseId" = some (Json.num 0) :=
  ⟨by decide, by decide⟩

theorem C9_witness :
    add_or_update_photo (JsonObj.cons "expenseId" (Json.num 1)
        (JsonObj.cons "url" (Json.str "x.jpg") JsonObj.nil))
      (Store.mk [] [] [] [("1", "old")]) =
      some (201, Json.obj (JsonObj.cons "expenseId" (Json.num 1)
        (JsonObj.cons "url" (Json.str "x.jpg") JsonObj.nil)),
        (Store.mk [] [] [] [("1", "old")]).withPhotos
          (kvSet [("1", "old")] "1" (dumpStr (Json.obj (JsonObj.cons "expenseId"
            (Json.num 1) (JsonObj.cons "url" (Json.str "x.jpg") JsonObj.nil)))))) :=
  ((C9_photo_upsert (Store.mk [] [] [] [("1", "old")])
    (JsonObj.cons "expenseId" (Json.num 1)
      (JsonObj.cons "url" (Json.str "x.jpg") JsonObj.nil))).2 "1"
    (by decide) (by decide)).1

/-- C8 (amended): along any trace of API requests in which no settings
write targets the `next_expense_id` counter key (POST `/api/settings`
accepts arbitrary keys and `db.set` shares the Redis key space with the
counters, so such a write can reset the counter — see the
counterexample), every POST `/api/expenses` assigns its id by
incrementing the counter, so the assigned ids are exactly the consecutive
integers after the initial counter value: one per creation, pairwise
distinct, strictly increasing, unaffected by interleaved payment
creations or any other non-counter-writing operation, and never
reassigned or reused even after records are deleted. -/
theorem C8_expense_ids (ops : List Op) (st : Store) (c : Int)
    (hc : expCounterVal st = some c)
    (hops : ∀ op ∈ ops, touchesExpenseCounter op = false) :
    expIdsOf st ops =
      (List.range (countAddExpense ops)).map (fun i : Nat => c + 1 + (i : Int)) ∧
    List.Pairwise (fun a b : Int => a < b) (expIdsOf st ops) ∧
    (expIdsOf st ops).Nodup ∧
    (expIdsOf st ops).length = countAddExpense ops := by
  have h := expIdsOf_eq ops st c hc hops
  have hpw : List.Pairwise (fun a b : Int => a < b) (expIdsOf st ops) := by
    rw [h]
    refine List.Pairwise.map _ ?_ (List.pairwise_lt_range _)
    intro a b hab
    show (c + 1 + (a : Int)) < c + 1 + (b : Int)
    omega
  refine ⟨h, hpw, hpw.imp (fun hab => ne_of_lt hab), ?_⟩
  rw [h]
  simp

theorem C8_counterexample :
    expIdsOf (Store.mk [] [] [] [])
      [Op.addExpense JsonObj.nil,
        Op.saveSetting (JsonObj.cons "key" (Json.str "next_expense_id")
          (JsonObj.cons "value" (Json.num 0) JsonObj.nil)),
        Op.addExpense JsonObj.nil] = [1, 1] ∧
    ¬ (expIdsOf (Store.mk [] [] [] [])
      [Op.addExpense JsonObj.nil,
        Op.saveSetting (JsonObj.cons "key" (Json.str "next_expense_id")
          (JsonObj.cons "value" (Json.num 0) JsonObj.nil)),
        Op.addExpense JsonObj.nil]).Nodup :=
  ⟨by decide, by decide⟩

theorem C8_witness :
    expIdsOf (Store.mk [] [] [] [])
      [Op.addExpense JsonObj.nil, Op.addPayment JsonObj.nil,
        Op.deleteExpense 1, Op.addExpense JsonObj.nil] =
      (List.range 2).map (fun i : Nat => 0 + 1 + (i : Int)) :=
  (C8_expense_ids
    [Op.addExpense JsonObj.nil, Op.addPayment JsonObj.nil,
      Op.deleteExpense 1, Op.addExpense JsonObj.nil]
    (Store.mk [] [] [] []) 0 (by decide) (by decide)).1
